import Mathlib

/-!
Shallow embedding of the Lua provenance / undo-redo subsystem of
`src/LUAScripting/LUAProvenance.cpp` (class `tuvok::LuaProvenance`).

The controller state mirrors the member variables of `LuaProvenance`,
together with the two pieces of external engine state the controller
manipulates through the Lua interpreter:

* the per-function "last executed parameters" table (`TBL_MD_FUN_LAST_EXEC`),
  modelled as a total map from function name to parameter list, and
* the values held by the targets of the tracked commands (the variables the
  registered setters write), modelled as a total map from command name to the
  parameter list it was last invoked with.

C++ exceptions are modelled with `Except`; the error value carries the state
at the moment of the throw, so that theorems can speak about what a failing
call left behind.  `assert` violations and out-of-range `std::vector`
indexing are modelled as distinct error outcomes.  Recursion through the
script engine (a composited command executing further registered commands) is
bounded by an explicit fuel parameter; running out of fuel is a modelling
artifact reported as `LuaErr.fuelOut`.
-/

namespace TuvokProv

/-- Parameter values passed to registered commands (the closed set of value
types marshalled by `LUAFunBinding`; floating point is not modelled). -/
inductive LuaValue where
  | int (i : Int)
  | str (s : String)
  | boolean (b : Bool)
deriving DecidableEq, Repr

/-- An ordered parameter snapshot (`LuaCFunAbstract`). -/
abbrev Params := List LuaValue

/-- Human readable rendering of one value, for provenance log lines. -/
def formatValue : LuaValue → String
  | .int i => toString i
  | .str s => s
  | .boolean b => if b then "true" else "false"

/-- Mirrors `LuaCFunAbstract::getFormattedParameterValues`. -/
def getFormattedParameterValues (p : Params) : String :=
  String.intercalate ", " (p.map formatValue)

/-- One undo/redo stack record (`UndoRedoItem` in `LUAProvenance.h`): a
command name with its pre-call parameters (`undoParams`), the parameters of
the call itself (`redoParams`), and the child items recorded for commands the
call composited.  The C++ `childItems` starts as a null shared pointer; the
empty list plays that role here. -/
structure UndoRedoItem where
  function : String
  undoParams : Params
  redoParams : Params
  childItems : List UndoRedoItem

/-- Mirrors `UndoRedoItem::addChildItem`: append a child record. -/
def addChildItem (e : UndoRedoItem) (c : UndoRedoItem) : UndoRedoItem :=
  { e with childItems := e.childItems ++ [c] }

/-- The provenance controller state (members of `LuaProvenance`) plus the
engine-side state it reads and writes, plus `replayLog`, a ghost trace of the
invocations `performUndoRedoOp` issues to the script engine (function name,
parameters, isUndo), used to state in which order replays happen. -/
structure PState where
  mEnabled : Bool
  mTemporarilyDisabled : Bool
  mStackPointer : Nat
  mLoggingProvenance : Bool
  mDoProvReenterException : Bool
  mProvenanceDescLogEnabled : Bool
  mUndoRedoProvenanceDisable : Bool
  mCommandDepth : Int
  mUndoRedoStack : List UndoRedoItem
  mProvenanceDescList : List String
  lastExec : String → Params
  progState : String → Params
  replayLog : List (String × Params × Bool)

/-- Controller state produced by the `LuaProvenance` constructor, with the
engine-side last-exec tables initialised to empty parameter lists (the
defaults `createDefaultsAndLastExecTables` installs at registration). -/
def initState : PState where
  mEnabled := true
  mTemporarilyDisabled := false
  mStackPointer := 0
  mLoggingProvenance := false
  mDoProvReenterException := true
  mProvenanceDescLogEnabled := true
  mUndoRedoProvenanceDisable := false
  mCommandDepth := 0
  mUndoRedoStack := []
  mProvenanceDescList := []
  lastExec := fun _ => []
  progState := fun _ => []
  replayLog := []

/-- Error outcomes of controller operations.  The first four mirror the
exception classes of `LUAError.h` thrown in `LUAProvenance.cpp`;
`unregistered` is the engine error for executing a name with no function
table; `assertFail` marks a violated C `assert`; `ub` marks out-of-range
`std::vector` indexing; `fuelOut` is the recursion bound artifact. -/
inductive LuaErr where
  | reenter
  | invalidUndo
  | invalidRedo
  | invalidUndoOrRedo
  | unregistered
  | assertFail
  | ub
  | fuelOut
deriving DecidableEq, Repr

/-- Result of a stateful controller operation: the final state, or the error
thrown together with the state at the moment of the throw. -/
abbrev PResult := Except (LuaErr × PState) PState

/-- Mirrors `LuaProvenance::ammendLastProvLog`: append `ammend` to the last
provenance description line.  The function asserts the description list is
non-empty. -/
def ammendLastProvLog (s : PState) (ammend : String) : PResult :=
  match s.mProvenanceDescList.getLast? with
  | none => .error (.assertFail, s)
  | some last =>
      .ok { s with mProvenanceDescList :=
              s.mProvenanceDescList.dropLast ++ [last ++ ammend] }

/-- Mirrors `LuaProvenance::logExecution` (the `onCommandInvoked` path): the
reentrancy and temporary-disable guards, the provenance description push or
merge, and the undo/redo stack recording with redo-history truncation. -/
def logExecution (s : PState) (fname : String) (undoRedoStackExempt : Bool)
    (funParams : Params) : PResult :=
  if s.mTemporarilyDisabled then .ok s
  else if s.mLoggingProvenance then
    if s.mDoProvReenterException then .error (.reenter, s) else .ok s
  else
    let s1 : PState := { s with mLoggingProvenance := true }
    match
      (if s1.mProvenanceDescLogEnabled then
        let provParams := getFormattedParameterValues funParams
        let core := fname ++ "(" ++ provParams ++ ")" ++ " - depth:" ++
          toString s1.mCommandDepth
        if s1.mUndoRedoProvenanceDisable then
          ammendLastProvLog s1 (" -- Called: \"" ++ core ++ "\"")
        else
          .ok { s1 with mProvenanceDescList := s1.mProvenanceDescList ++ [core] }
      else .ok s1 : PResult) with
    | .error e => .error e
    | .ok s2 =>
      if undoRedoStackExempt || s2.mUndoRedoProvenanceDisable then
        .ok { s2 with mLoggingProvenance := false }
      else
        -- erase redo history; the loop pops `size - mStackPointer` items and
        -- the code then asserts the stack size equals the stack pointer
        if s2.mUndoRedoStack.length < s2.mStackPointer then
          .error (.assertFail, s2)
        else
          let s3 : PState :=
            { s2 with mUndoRedoStack := s2.mUndoRedoStack.take s2.mStackPointer }
          -- gather last execution parameters for inclusion in the undo stack
          let emptyParams := s3.lastExec fname
          match
            (if s3.mCommandDepth == 0 then
              .ok { s3 with
                mUndoRedoStack :=
                  s3.mUndoRedoStack ++ [⟨fname, emptyParams, funParams, []⟩],
                mStackPointer := s3.mStackPointer + 1 }
            else
              match s3.mUndoRedoStack.getLast? with
              | none => .error (.assertFail, s3)
              | some back =>
                .ok { s3 with mUndoRedoStack :=
                  s3.mUndoRedoStack.dropLast ++
                    [addChildItem back ⟨fname, emptyParams, funParams, []⟩] }
             : PResult) with
          | .error e => .error e
          | .ok s4 =>
            -- repopulate the lastExec table with the just-executed parameters
            .ok { s4 with
              lastExec := fun n => if n = fname then funParams else s4.lastExec n,
              mLoggingProvenance := false }

/-- Mirrors `LuaProvenance::clearProvenance`: clear the undo/redo stack and
reset the stack pointer (the provenance description list is not touched). -/
def clearProvenance (s : PState) : PState :=
  { s with mUndoRedoStack := [], mStackPointer := 0 }

/-- Mirrors `LuaProvenance::setEnabled`. -/
def setEnabled (s : PState) (enabled : Bool) : PState :=
  let s1 := if enabled = false && s.mEnabled = true then clearProvenance s else s
  { s1 with mEnabled := enabled }

/-- Mirrors `LuaProvenance::enableLogAll`. -/
def enableLogAll (s : PState) (enabled : Bool) : PState :=
  let s1 : PState := { s with mProvenanceDescLogEnabled := enabled }
  if s1.mProvenanceDescLogEnabled = false then
    { s1 with mProvenanceDescList := [] }
  else s1

/-- Mirrors `LuaProvenance::setDisableProvTemporarily`. -/
def setDisableProvTemporarily (s : PState) (disable : Bool) : PState :=
  { s with mTemporarilyDisabled := disable }

/-- Mirrors `LuaProvenance::beginCommand`. -/
def beginCommand (s : PState) : PState :=
  { s with mCommandDepth := s.mCommandDepth + 1 }

/-- Mirrors `LuaProvenance::endCommand`. -/
def endCommand (s : PState) : PState :=
  { s with mCommandDepth := s.mCommandDepth - 1 }

/-- Mirrors `LuaProvenance::enableProvReentryEx`. -/
def enableProvReentryEx (s : PState) (enable : Bool) : PState :=
  { s with mDoProvReenterException := enable }

/-- Modelled from the spec: the body of a registered command, executed by the
script engine (`LuaScripting`, whose sources are not part of this tree).  A
primitive command is a setter that stores its parameters in its own target
variable; a composited command executes further registered commands, passing
parameters derived from its own (spec section 6: `invoke(name, params)` "may
itself recursively call back into the Provenance Controller's
`onCommandInvoked` for nested tracked commands"). -/
inductive CommandBody where
  | prim : CommandBody
  | comp : List (String × (Params → Params)) → CommandBody

/-- Modelled from the spec: a command registration — the stack-exempt flag
passed at registration time plus the command's body.  No undo or redo hooks
are registered anywhere in this repository, so hook resolution in
`performUndoRedoOp` always falls through to the function's `__call`. -/
structure CommandDef where
  exempt : Bool
  body : CommandBody

/-- Modelled from the spec: the registered function tables of the engine. -/
abbrev Registry := String → Option CommandDef

/-- A registry is closed when every name a composited body executes is itself
registered. -/
def RegClosed (reg : Registry) : Prop :=
  ∀ n cmd, reg n = some cmd →
    ∀ calls, cmd.body = CommandBody.comp calls →
      ∀ c ∈ calls, (reg c.1).isSome

/-- A pending piece of work for the script engine: either the instrumented
execution of one registered command, or the remaining sub-command sequence of
a composited body. -/
inductive EngineCall where
  | call (fname : String) (args : Params)
  | seqCalls (calls : List (String × (Params → Params))) (args : Params)

/-- Target write of a primitive setter: store its parameters in its own
target variable. -/
def runPrim (fname : String) (args : Params) (s : PState) : PState :=
  { s with progState := fun n => if n = fname then args else s.progState n }

/-- Modelled from the spec: the script engine's dispatch (`LuaScripting`,
whose sources are not part of this tree).  Executing a registered command
through its instrumented `__call` wrapper means (spec section 2): call into
the Provenance Controller (`logExecution`) before argument consumption —
only while provenance is enabled — then run the command's body between
`beginCommand`/`endCommand` brackets, so that nested tracked calls are
recorded as children; a composited body executes its sub-commands in order
through the same wrapper.  Recursion is bounded by `fuel`, which strictly
decreases on every step so that the function is structurally recursive. -/
def engineStep (reg : Registry) : Nat → EngineCall → PState → PResult
  | 0, _, s => .error (.fuelOut, s)
  | fuel + 1, .call fname args, s =>
    match reg fname with
    | none => .error (.unregistered, s)
    | some cmd => do
      let s1 ← if s.mEnabled then logExecution s fname cmd.exempt args
               else pure s
      let s2 ←
        match cmd.body with
        | .prim => .ok (runPrim fname args (beginCommand s1))
        | .comp calls => engineStep reg fuel (.seqCalls calls args) (beginCommand s1)
      pure (endCommand s2)
  | _ + 1, .seqCalls [] _, s => .ok s
  | fuel + 1, .seqCalls ((cname, f) :: rest) args, s => do
      let s1 ← engineStep reg fuel (.call cname (f args)) s
      engineStep reg fuel (.seqCalls rest args) s1

/-- Instrumented execution of one registered command (see `engineStep`). -/
def execFun (reg : Registry) (fuel : Nat) (fname : String) (args : Params)
    (s : PState) : PResult :=
  engineStep reg fuel (.call fname args) s

/-- The write list a command's execution performs on the tracked targets: the
ordered sequence of (target, stored parameters) pairs.  It depends only on
the registry, the fuel and the call — not on the state — which is what makes
replaying a recorded call reproduce its effect.  Its recursion mirrors
`engineStep` exactly. -/
def effStep (reg : Registry) : Nat → EngineCall → Option (List (String × Params))
  | 0, _ => none
  | fuel + 1, .call fname args =>
    match reg fname with
    | none => none
    | some cmd =>
      match cmd.body with
      | .prim => some [(fname, args)]
      | .comp calls => effStep reg fuel (.seqCalls calls args)
  | _ + 1, .seqCalls [] _ => some []
  | fuel + 1, .seqCalls ((cname, f) :: rest) args => do
      let l1 ← effStep reg fuel (.call cname (f args))
      let l2 ← effStep reg fuel (.seqCalls rest args)
      pure (l1 ++ l2)

/-- Write list of one command invocation. -/
def execEff (reg : Registry) (fuel : Nat) (fname : String) (args : Params) :
    Option (List (String × Params)) :=
  effStep reg fuel (.call fname args)

/-- Mirrors `LuaProvenance::performUndoRedoOp`: resolve the function table
(failing with `LuaProvenanceInvalidUndoOrRedo` when it does not exist),
invoke the function with the given parameters while
`mUndoRedoProvenanceDisable` is raised around the call by plain assignment,
then overwrite the function's last-exec table with those parameters.  The
invocation is recorded on the ghost `replayLog`. -/
def performUndoRedoOp (reg : Registry) (fuel : Nat) (funcName : String)
    (params : Params) (isUndo : Bool) (s : PState) : PResult :=
  match reg funcName with
  | none => .error (.invalidUndoOrRedo, s)
  | some _ => do
    let s0 : PState := { s with replayLog := s.replayLog ++ [(funcName, params, isUndo)] }
    let s1 : PState := { s0 with mUndoRedoProvenanceDisable := true }
    let s2 ← execFun reg fuel funcName params s1
    let s3 : PState := { s2 with mUndoRedoProvenanceDisable := false }
    pure { s3 with lastExec :=
             fun n => if n = funcName then params else s3.lastExec n }

/-- Mirrors the `catch` in `issueUndo`: a `LuaProvenanceInvalidUndoOrRedo`
thrown by the replay is re-thrown as `LuaProvenanceInvalidUndo`; every other
outcome passes through. -/
def rethrowUndo : PResult → PResult
  | .error (.invalidUndoOrRedo, t) => .error (.invalidUndo, t)
  | r => r

/-- Mirrors the `catch` in `issueRedo`. -/
def rethrowRedo : PResult → PResult
  | .error (.invalidUndoOrRedo, t) => .error (.invalidRedo, t)
  | r => r

/-- Mirrors the child loop of `issueUndo`: replay every child item's undo
parameters in forward order. -/
def undoChildren (reg : Registry) (fuel : Nat) :
    List UndoRedoItem → PState → PResult
  | [], s => .ok s
  | it :: rest, s => do
      let s1 ← rethrowUndo (performUndoRedoOp reg fuel it.function it.undoParams true s)
      undoChildren reg fuel rest s1

/-- Mirrors `LuaProvenance::issueUndo`: guard against an empty undo history,
replay the item below the stack pointer with its undo parameters, then replay
each of its children (parent first, then children in forward order), and only
then decrement the stack pointer. -/
def issueUndo (reg : Registry) (fuel : Nat) (s : PState) : PResult :=
  if s.mStackPointer = 0 then .error (.invalidUndo, s)
  else
    match s.mUndoRedoStack.get? (s.mStackPointer - 1) with
    | none => .error (.ub, s)
    | some undoItem => do
      let s1 ← rethrowUndo
        (performUndoRedoOp reg fuel undoItem.function undoItem.undoParams true s)
      let s2 ← undoChildren reg fuel undoItem.childItems s1
      pure { s2 with mStackPointer := s2.mStackPointer - 1 }

/-- Mirrors `LuaProvenance::issueRedo`: guard against the pointer sitting at
the top of the stack, replay the item at the stack pointer with its redo
parameters (child items are deliberately ignored), then increment the stack
pointer. -/
def issueRedo (reg : Registry) (fuel : Nat) (s : PState) : PResult :=
  if s.mStackPointer = s.mUndoRedoStack.length then .error (.invalidRedo, s)
  else
    match s.mUndoRedoStack.get? s.mStackPointer with
    | none => .error (.ub, s)
    | some redoItem => do
      let s1 ← rethrowRedo
        (performUndoRedoOp reg fuel redoItem.function redoItem.redoParams false s)
      pure { s1 with mStackPointer := s1.mStackPointer + 1 }

/-- Apply a write list to a target map, first write first. -/
def applyWrites (st : String → Params) : List (String × Params) → (String → Params)
  | [] => st
  | (k, v) :: rest => applyWrites (fun n => if n = k then v else st n) rest

/-- The value a write list leaves in one target, when it writes it at all. -/
def lastWrite (l : List (String × Params)) (v : String) : Option Params :=
  l.foldl (fun acc kv => if v = kv.1 then some kv.2 else acc) none

/-- Modelled from the spec: script-level invocation of the registered,
stack-exempt command `provenance.undo` — the engine logs the call through
`onCommandInvoked`, brackets the body with `beginCommand`/`endCommand`, and
the body is `LuaProvenance::issueUndo`. -/
def scriptUndo (reg : Registry) (fuel : Nat) (s : PState) : PResult := do
  let s1 ← if s.mEnabled then logExecution s "provenance.undo" true []
           else pure s
  let s2 ← issueUndo reg fuel (beginCommand s1)
  pure (endCommand s2)

/-- Modelled from the spec: script-level invocation of `provenance.redo`. -/
def scriptRedo (reg : Registry) (fuel : Nat) (s : PState) : PResult := do
  let s1 ← if s.mEnabled then logExecution s "provenance.redo" true []
           else pure s
  let s2 ← issueRedo reg fuel (beginCommand s1)
  pure (endCommand s2)

/-- Modelled from the spec: script-level invocation of the stack-exempt
command `provenance.enable`. -/
def scriptSetEnabled (reg : Registry) (fuel : Nat) (b : Bool) (s : PState) :
    PResult := do
  let _ := reg
  let _ := fuel
  let s1 ← if s.mEnabled then
             logExecution s "provenance.enable" true [LuaValue.boolean b]
           else pure s
  pure (endCommand (setEnabled (beginCommand s1) b))

/-- Modelled from the spec: script-level invocation of the stack-exempt
command `provenance.clear`. -/
def scriptClear (reg : Registry) (fuel : Nat) (s : PState) : PResult := do
  let _ := reg
  let _ := fuel
  let s1 ← if s.mEnabled then logExecution s "provenance.clear" true []
           else pure s
  pure (endCommand (clearProvenance (beginCommand s1)))

/-- One step of the script-facing interface of the controller. -/
inductive Op where
  | exec (name : String) (args : Params)
  | undo
  | redo
  | enable (b : Bool)
  | clear
  | logAll (b : Bool)

/-- Run one script-facing step. -/
def runOp (reg : Registry) (fuel : Nat) : Op → PState → PResult
  | .exec n a, s => execFun reg fuel n a s
  | .undo, s => scriptUndo reg fuel s
  | .redo, s => scriptRedo reg fuel s
  | .enable b, s => scriptSetEnabled reg fuel b s
  | .clear, s => scriptClear reg fuel s
  | .logAll b, s => .ok (enableLogAll s b)

/-- Run a sequence of script-facing steps, stopping at the first error. -/
def runOps (reg : Registry) (fuel : Nat) : List Op → PState → PResult
  | [], s => .ok s
  | op :: rest, s => do
      let s1 ← runOp reg fuel op s
      runOps reg fuel rest s1

/-- A controller state is reachable when some sequence of script-facing
steps produces it from the freshly constructed controller. -/
def Reachable (reg : Registry) (s : PState) : Prop :=
  ∃ ops fuel, runOps reg fuel ops initState = .ok s

/-! ### Invariants and helper lemmas -/

/-- Only the command name and the structure of a registered body determine
which targets get written; two engine work items that dispatch the same names
have write lists over the same targets. -/
def sameShape : EngineCall → EngineCall → Prop
  | .call n _, .call n' _ => n = n'
  | .seqCalls cs _, .seqCalls cs' _ => cs = cs'
  | _, _ => False

/-- When textual logging is on, the description list is non-empty.  This is
the precondition of `ammendLastProvLog`'s assertion. -/
def DescInv (s : PState) : Prop :=
  s.mProvenanceDescLogEnabled = true → s.mProvenanceDescList ≠ []

/-- The state invariant of the controller between script-facing operations:
no capture or replay is in flight, command depth is zero, the stack pointer
is in range, and a disabled controller holds no undo/redo history. -/
def Inv (s : PState) : Prop :=
  s.mTemporarilyDisabled = false ∧ s.mLoggingProvenance = false ∧
  s.mUndoRedoProvenanceDisable = false ∧ s.mCommandDepth = 0 ∧
  s.mStackPointer ≤ s.mUndoRedoStack.length ∧
  (s.mEnabled = false → s.mUndoRedoStack = [] ∧ s.mStackPointer = 0)

theorem applyWrites_append (st : String → Params)
    (l1 l2 : List (String × Params)) :
    applyWrites st (l1 ++ l2) = applyWrites (applyWrites st l1) l2 := by
  induction l1 generalizing st with
  | nil => simp [applyWrites]
  | cons kv rest ih => simp [applyWrites, ih]

theorem lastWrite_foldl (v : String) (l : List (String × Params)) :
    ∀ acc : Option Params,
      l.foldl (fun acc kv => if v = kv.1 then some kv.2 else acc) acc =
        match lastWrite l v with
        | some w => some w
        | none => acc := by
  induction l with
  | nil => intro acc; simp [lastWrite]
  | cons kv rest ih =>
      intro acc
      show List.foldl _ (if v = kv.1 then some kv.2 else acc) rest = _
      rw [ih]
      have hc : lastWrite (kv :: rest) v =
          match lastWrite rest v with
          | some w => some w
          | none => if v = kv.1 then some kv.2 else none := by
        show List.foldl _ (if v = kv.1 then some kv.2 else none) rest = _
        rw [ih]
      rw [hc]
      rcases lastWrite rest v with _ | w
      · by_cases hv : v = kv.1 <;> simp [hv]
      · simp

theorem lastWrite_cons (kv : String × Params) (l : List (String × Params))
    (v : String) :
    lastWrite (kv :: l) v =
      match lastWrite l v with
      | some w => some w
      | none => if v = kv.1 then some kv.2 else none := by
  show List.foldl _ (if v = kv.1 then some kv.2 else none) l = _
  rw [lastWrite_foldl]

theorem applyWrites_lastWrite (st : String → Params)
    (l : List (String × Params)) (v : String) :
    applyWrites st l v = (lastWrite l v).getD (st v) := by
  induction l generalizing st with
  | nil => simp [applyWrites, lastWrite]
  | cons kv rest ih =>
      rw [applyWrites, ih, lastWrite_cons]
      rcases h : lastWrite rest v with _ | w <;> by_cases hv : v = kv.1 <;>
        simp [hv]

theorem lastWrite_none_iff (l : List (String × Params)) (v : String) :
    lastWrite l v = none ↔ v ∉ l.map Prod.fst := by
  induction l with
  | nil => simp [lastWrite]
  | cons kv rest ih =>
      rw [lastWrite_cons]
      rcases h : lastWrite rest v with _ | w
      · rw [h] at ih
        have hrest : v ∉ rest.map Prod.fst := ih.mp rfl
        by_cases hv : v = kv.1
        · simp [hv]
        · simp only [List.map_cons, List.mem_cons]
          constructor
          · intro _ hmem
            rcases hmem with h1 | h2
            · exact hv h1
            · exact hrest h2
          · intro _
            simp [hv]
      · have hmem : v ∈ rest.map Prod.fst := by
          by_contra hc
          rw [← ih] at hc
          rw [h] at hc
          exact Option.noConfusion hc
        constructor
        · intro hcon
          exact Option.noConfusion hcon
        · intro hcon
          exact absurd (List.mem_cons_of_mem _ hmem) (by simpa using hcon)

theorem lastWrite_append (l1 l2 : List (String × Params)) (v : String) :
    lastWrite (l1 ++ l2) v =
      match lastWrite l2 v with
      | some w => some w
      | none => lastWrite l1 v := by
  induction l1 with
  | nil =>
      rw [List.nil_append]
      rcases h : lastWrite l2 v with _ | w <;> simp [h, lastWrite]
  | cons kv rest ih =>
      rw [List.cons_append, lastWrite_cons, ih, lastWrite_cons]
      rcases lastWrite l2 v with _ | w <;> rcases lastWrite rest v with _ | u <;>
        simp

/-! ### Path lemmas for `logExecution` -/

/-- With the temporary-disable flag raised, `logExecution` is an exact no-op
(this is how undo/redo replay avoids re-recording itself). -/
theorem logExecution_tempDisabled (s : PState) (fname : String) (ex : Bool)
    (p : Params) (htmp : s.mTemporarilyDisabled = true) :
    logExecution s fname ex p = .ok s := by
  simp [logExecution, htmp]

/-- During replay suppression (`mUndoRedoProvenanceDisable`), `logExecution`
only merges text into the last provenance description line: every other
component of the state is untouched, and the description list stays
non-empty whenever textual logging is on. -/
theorem logExecution_suppressed (s : PState) (fname : String) (ex : Bool)
    (p : Params) (htmp : s.mTemporarilyDisabled = false)
    (hlog : s.mLoggingProvenance = false)
    (hsup : s.mUndoRedoProvenanceDisable = true) (hdesc : DescInv s) :
    ∃ s', logExecution s fname ex p = .ok s' ∧
      s'.mEnabled = s.mEnabled ∧
      s'.mTemporarilyDisabled = s.mTemporarilyDisabled ∧
      s'.mStackPointer = s.mStackPointer ∧
      s'.mLoggingProvenance = false ∧
      s'.mDoProvReenterException = s.mDoProvReenterException ∧
      s'.mProvenanceDescLogEnabled = s.mProvenanceDescLogEnabled ∧
      s'.mUndoRedoProvenanceDisable = s.mUndoRedoProvenanceDisable ∧
      s'.mCommandDepth = s.mCommandDepth ∧
      s'.mUndoRedoStack = s.mUndoRedoStack ∧
      s'.lastExec = s.lastExec ∧ s'.progState = s.progState ∧
      s'.replayLog = s.replayLog ∧ DescInv s' := by
  rcases hdl : s.mProvenanceDescLogEnabled with _ | _
  · refine ⟨{ s with mLoggingProvenance := false }, ?_, ?_⟩
    · simp [logExecution, htmp, hlog, hdl, hsup]
    · simp [DescInv, hdl]
  · have hne : s.mProvenanceDescList ≠ [] := hdesc hdl
    have hsome : s.mProvenanceDescList.getLast?.isSome := by
      rwa [List.getLast?_isSome]
    rcases hlast : s.mProvenanceDescList.getLast? with _ | last
    · rw [hlast] at hsome; exact absurd hsome (by simp)
    · refine ⟨{ s with
          mLoggingProvenance := false,
          mProvenanceDescList := s.mProvenanceDescList.dropLast ++
            [last ++ (" -- Called: \"" ++
              (fname ++ "(" ++ getFormattedParameterValues p ++ ")" ++
                " - depth:" ++ toString s.mCommandDepth) ++ "\"")] }, ?_, ?_⟩
      · simp [logExecution, htmp, hlog, hdl, hsup, ammendLastProvLog, hlast]
      · simp [DescInv, hdl]

/-- An unsuppressed call for a stack-exempt command only pushes a description
line (when textual logging is on): the undo/redo stack, the stack pointer and
the engine state are untouched, and the description list is non-empty
afterwards whenever textual logging is on. -/
theorem logExecution_exempt (s : PState) (fname : String) (p : Params)
    (htmp : s.mTemporarilyDisabled = false)
    (hlog : s.mLoggingProvenance = false)
    (hsup : s.mUndoRedoProvenanceDisable = false) :
    ∃ s', logExecution s fname true p = .ok s' ∧
      s'.mEnabled = s.mEnabled ∧
      s'.mTemporarilyDisabled = s.mTemporarilyDisabled ∧
      s'.mStackPointer = s.mStackPointer ∧
      s'.mLoggingProvenance = false ∧
      s'.mDoProvReenterException = s.mDoProvReenterException ∧
      s'.mProvenanceDescLogEnabled = s.mProvenanceDescLogEnabled ∧
      s'.mUndoRedoProvenanceDisable = s.mUndoRedoProvenanceDisable ∧
      s'.mCommandDepth = s.mCommandDepth ∧
      s'.mUndoRedoStack = s.mUndoRedoStack ∧
      s'.lastExec = s.lastExec ∧ s'.progState = s.progState ∧
      s'.replayLog = s.replayLog ∧ DescInv s' := by
  rcases hdl : s.mProvenanceDescLogEnabled with _ | _
  · refine ⟨{ s with mLoggingProvenance := false }, ?_, ?_⟩
    · simp [logExecution, htmp, hlog, hdl, hsup]
    · simp [DescInv, hdl]
  · refine ⟨{ s with
        mLoggingProvenance := false,
        mProvenanceDescList := s.mProvenanceDescList ++
          [fname ++ "(" ++ getFormattedParameterValues p ++ ")" ++
            " - depth:" ++ toString s.mCommandDepth] }, ?_, ?_⟩
    · simp [logExecution, htmp, hlog, hdl, hsup]
    · simp [DescInv, hdl]

/-- The recording path of `logExecution` (claim C1's subject): for a
non-exempt command, outside replay suppression, the redo history above the
stack pointer is dropped, then a fresh entry built from the last-executed
parameters (undo) and the call parameters (redo) is pushed — as a new
top-level entry with a stack-pointer increment at command depth zero, and as
a child of the most recently pushed top-level entry otherwise — and the
last-exec store of the command is overwritten with the call parameters. -/
theorem logExecution_record (s : PState) (fname : String) (p : Params)
    (htmp : s.mTemporarilyDisabled = false)
    (hlog : s.mLoggingProvenance = false)
    (hsup : s.mUndoRedoProvenanceDisable = false)
    (hsplen : s.mStackPointer ≤ s.mUndoRedoStack.length)
    (hdepth : s.mCommandDepth ≠ 0 → 0 < s.mStackPointer) :
    ∃ s', logExecution s fname false p = .ok s' ∧
      s'.mEnabled = s.mEnabled ∧
      s'.mTemporarilyDisabled = s.mTemporarilyDisabled ∧
      s'.mLoggingProvenance = false ∧
      s'.mDoProvReenterException = s.mDoProvReenterException ∧
      s'.mProvenanceDescLogEnabled = s.mProvenanceDescLogEnabled ∧
      s'.mUndoRedoProvenanceDisable = s.mUndoRedoProvenanceDisable ∧
      s'.mCommandDepth = s.mCommandDepth ∧
      s'.progState = s.progState ∧ s'.replayLog = s.replayLog ∧
      s'.lastExec = (fun n => if n = fname then p else s.lastExec n) ∧
      (DescInv s → DescInv s') ∧
      (s.mCommandDepth = 0 →
        s'.mUndoRedoStack = s.mUndoRedoStack.take s.mStackPointer ++
          [⟨fname, s.lastExec fname, p, []⟩] ∧
        s'.mStackPointer = s.mStackPointer + 1) ∧
      (s.mCommandDepth ≠ 0 →
        (∃ back, (s.mUndoRedoStack.take s.mStackPointer).getLast? = some back ∧
          s'.mUndoRedoStack =
            (s.mUndoRedoStack.take s.mStackPointer).dropLast ++
              [addChildItem back ⟨fname, s.lastExec fname, p, []⟩]) ∧
        s'.mStackPointer = s.mStackPointer) ∧
      s'.mStackPointer ≤ s'.mUndoRedoStack.length := by
  have hnotlt : ¬ s.mUndoRedoStack.length < s.mStackPointer := Nat.not_lt.mpr hsplen
  have htake : (s.mUndoRedoStack.take s.mStackPointer).length = s.mStackPointer := by
    rw [List.length_take]
    exact Nat.min_eq_left hsplen
  rcases Bool.eq_false_or_eq_true (s.mCommandDepth == 0) with hd | hd
  · -- command depth is zero: push a new top-level entry
    have hdeq : s.mCommandDepth = 0 := by
      exact (beq_iff_eq (a := s.mCommandDepth) (b := (0 : Int))).mp hd
    rcases Bool.eq_false_or_eq_true s.mProvenanceDescLogEnabled with hdl | hdl
    · refine ⟨{ s with
          mLoggingProvenance := false,
          mProvenanceDescList := s.mProvenanceDescList ++
            [fname ++ "(" ++ getFormattedParameterValues p ++ ")" ++
              " - depth:" ++ toString s.mCommandDepth],
          mUndoRedoStack := s.mUndoRedoStack.take s.mStackPointer ++
            [⟨fname, s.lastExec fname, p, []⟩],
          mStackPointer := s.mStackPointer + 1,
          lastExec := fun n => if n = fname then p else s.lastExec n }, ?_, ?_⟩
      · simp [logExecution, htmp, hlog, hdl, hsup, hnotlt, hd]
      · refine ⟨rfl, rfl, rfl, rfl, rfl, rfl, rfl, rfl, rfl, rfl, ?_, ?_, ?_, ?_⟩
        · intro _; simp [DescInv, hdl]
        · exact fun _ => ⟨rfl, rfl⟩
        · intro hc; exact absurd hdeq hc
        · simp only [List.length_append, List.length_cons, List.length_nil]
          omega
    · refine ⟨{ s with
          mLoggingProvenance := false,
          mUndoRedoStack := s.mUndoRedoStack.take s.mStackPointer ++
            [⟨fname, s.lastExec fname, p, []⟩],
          mStackPointer := s.mStackPointer + 1,
          lastExec := fun n => if n = fname then p else s.lastExec n }, ?_, ?_⟩
      · simp [logExecution, htmp, hlog, hdl, hsup, hnotlt, hd]
      · refine ⟨rfl, rfl, rfl, rfl, rfl, rfl, rfl, rfl, rfl, rfl, ?_, ?_, ?_, ?_⟩
        · intro _; simp [DescInv, hdl]
        · exact fun _ => ⟨rfl, rfl⟩
        · intro hc; exact absurd hdeq hc
        · simp only [List.length_append, List.length_cons, List.length_nil]
          omega
  · -- command depth is non-zero: record a child of the top entry
    have hdne : s.mCommandDepth ≠ 0 := by
      intro hc
      rw [hc] at hd
      simp at hd
    have hsppos : 0 < s.mStackPointer := hdepth hdne
    have htne : s.mUndoRedoStack.take s.mStackPointer ≠ [] := by
      intro hc
      rw [hc] at htake
      simp at htake
      omega
    obtain ⟨back, hlast⟩ :
        ∃ back, (s.mUndoRedoStack.take s.mStackPointer).getLast? = some back := by
      rw [← Option.isSome_iff_exists]
      rwa [List.getLast?_isSome]
    rcases Bool.eq_false_or_eq_true s.mProvenanceDescLogEnabled with hdl | hdl
    · refine ⟨{ s with
          mLoggingProvenance := false,
          mProvenanceDescList := s.mProvenanceDescList ++
            [fname ++ "(" ++ getFormattedParameterValues p ++ ")" ++
              " - depth:" ++ toString s.mCommandDepth],
          mUndoRedoStack := (s.mUndoRedoStack.take s.mStackPointer).dropLast ++
            [addChildItem back ⟨fname, s.lastExec fname, p, []⟩],
          lastExec := fun n => if n = fname then p else s.lastExec n }, ?_, ?_⟩
      · simp [logExecution, htmp, hlog, hdl, hsup, hnotlt, hd, hlast]
      · refine ⟨rfl, rfl, rfl, rfl, rfl, rfl, rfl, rfl, rfl, rfl, ?_, ?_, ?_, ?_⟩
        · intro _; simp [DescInv, hdl]
        · intro hc; exact absurd hc hdne
        · exact fun _ => ⟨⟨back, hlast, rfl⟩, rfl⟩
        · simp only [List.length_append, List.length_dropLast, List.length_cons,
            List.length_nil]
          omega
    · refine ⟨{ s with
          mLoggingProvenance := false,
          mUndoRedoStack := (s.mUndoRedoStack.take s.mStackPointer).dropLast ++
            [addChildItem back ⟨fname, s.lastExec fname, p, []⟩],
          lastExec := fun n => if n = fname then p else s.lastExec n }, ?_, ?_⟩
      · simp [logExecution, htmp, hlog, hdl, hsup, hnotlt, hd, hlast]
      · refine ⟨rfl, rfl, rfl, rfl, rfl, rfl, rfl, rfl, rfl, rfl, ?_, ?_, ?_, ?_⟩
        · intro _; simp [DescInv, hdl]
        · intro hc; exact absurd hc hdne
        · exact fun _ => ⟨⟨back, hlast, rfl⟩, rfl⟩
        · simp only [List.length_append, List.length_dropLast, List.length_cons,
            List.length_nil]
          omega

/-! ### Behaviour of the engine during replay suppression -/

@[simp] theorem except_bind_ok {ε α β : Type} (a : α) (f : α → Except ε β) :
    (Except.ok a : Except ε α) >>= f = f a := rfl

@[simp] theorem except_bind_error {ε α β : Type} (e : ε) (f : α → Except ε β) :
    (Except.error e : Except ε α) >>= f = .error e := rfl

@[simp] theorem except_pure_eq_ok {ε α : Type} (a : α) :
    (pure a : Except ε α) = .ok a := rfl

@[simp] theorem except_map_ok {ε α β : Type} (a : α) (f : α → β) :
    (Except.ok a : Except ε α).map f = .ok (f a) := rfl

@[simp] theorem except_map_error {ε α β : Type} (e : ε) (f : α → β) :
    (Except.error e : Except ε α).map f = .error e := rfl

/-- Every name an engine work item dispatches directly is registered. -/
def CallOk (reg : Registry) : EngineCall → Prop
  | .call fname _ => (reg fname).isSome
  | .seqCalls calls _ => ∀ c ∈ calls, (reg c.1).isSome

/-- What a successful engine dispatch does while replay suppression is
active: it only merges provenance description text and applies the command's
write list to the tracked targets; the undo/redo stack, the stack pointer,
the last-exec tables and all controller flags are untouched. -/
structure SuppOk (reg : Registry) (fuel : Nat) (c : EngineCall)
    (s s' : PState) : Prop where
  enab : s'.mEnabled = s.mEnabled
  temp : s'.mTemporarilyDisabled = false
  logp : s'.mLoggingProvenance = false
  reent : s'.mDoProvReenterException = s.mDoProvReenterException
  descOn : s'.mProvenanceDescLogEnabled = s.mProvenanceDescLogEnabled
  supp : s'.mUndoRedoProvenanceDisable = true
  depth : s'.mCommandDepth = s.mCommandDepth
  stack : s'.mUndoRedoStack = s.mUndoRedoStack
  sp : s'.mStackPointer = s.mStackPointer
  dinv : DescInv s'
  lex : s'.lastExec = s.lastExec
  rlog : s'.replayLog = s.replayLog
  eff : ∃ l, effStep reg fuel c = some l ∧
    s'.progState = applyWrites s.progState l

/-- What a failing engine dispatch during replay suppression left behind: the
error is an unresolvable name or fuel exhaustion, the undo/redo stack and
stack pointer are untouched, the last-exec tables are untouched, and the
replay-suppression flag is still raised in the thrown-from state. -/
structure SuppErr (s t : PState) (e : LuaErr) : Prop where
  kind : e = .unregistered ∨ e = .fuelOut
  stack : t.mUndoRedoStack = s.mUndoRedoStack
  sp : t.mStackPointer = s.mStackPointer
  logp : t.mLoggingProvenance = false
  supp : t.mUndoRedoProvenanceDisable = true
  lex : t.lastExec = s.lastExec

/-- Master lemma about the engine under replay suppression.  Proved by
induction on the fuel, which strictly decreases on every dispatch step. -/
theorem engineStep_suppressed (reg : Registry) :
    ∀ (fuel : Nat) (c : EngineCall) (s : PState),
      s.mTemporarilyDisabled = false → s.mLoggingProvenance = false →
      s.mUndoRedoProvenanceDisable = true → DescInv s →
      (∀ s', engineStep reg fuel c s = .ok s' → SuppOk reg fuel c s s') ∧
      (∀ e t, engineStep reg fuel c s = .error (e, t) →
        SuppErr s t e ∧
          (RegClosed reg → CallOk reg c → e ≠ .unregistered)) := by
  intro fuel
  induction fuel with
  | zero =>
      intro c s htmp hlog hsup hdesc
      have h0 : engineStep reg 0 c s = .error (.fuelOut, s) := by
        cases c <;> rfl
      constructor
      · intro s' hok
        rw [h0] at hok
        exact absurd hok (by simp)
      · intro e t herr
        rw [h0] at herr
        have hpair := Except.error.inj herr
        injection hpair with he ht
        subst he; subst ht
        exact ⟨⟨Or.inr rfl, rfl, rfl, hlog, hsup, rfl⟩, fun _ _ => by simp⟩
  | succ fuel ih =>
      intro c s htmp hlog hsup hdesc
      cases c with
      | call fname args =>
          cases hreg : reg fname with
          | none =>
              have h0 : engineStep reg (fuel + 1) (.call fname args) s =
                  .error (.unregistered, s) := by
                simp [engineStep, hreg]
              constructor
              · intro s' hok
                rw [h0] at hok
                exact absurd hok (by simp)
              · intro e t herr
                rw [h0] at herr
                have hpair := Except.error.inj herr
                injection hpair with he ht
                subst he; subst ht
                refine ⟨⟨Or.inl rfl, rfl, rfl, hlog, hsup, rfl⟩, ?_⟩
                intro _ hcall
                simp [CallOk, hreg] at hcall
          | some cmd =>
              -- the controller is consulted first (when enabled), then the
              -- body runs inside depth brackets
              obtain ⟨s1, hrunB, h1enab, h1temp, h1sp, h1logp, h1reent,
                  h1descOn, h1supp, h1depth, h1stack, h1lex, h1prog, h1rlog,
                  h1dinv⟩ :
                  ∃ s1,
                    engineStep reg (fuel + 1) (.call fname args) s =
                      (match cmd.body with
                       | .prim =>
                           (pure (endCommand (runPrim fname args (beginCommand s1)))
                             : PResult)
                       | .comp calls =>
                           engineStep reg fuel (.seqCalls calls args)
                             (beginCommand s1) >>=
                             (fun s2 => pure (endCommand s2))) ∧
                    s1.mEnabled = s.mEnabled ∧
                    s1.mTemporarilyDisabled = s.mTemporarilyDisabled ∧
                    s1.mStackPointer = s.mStackPointer ∧
                    s1.mLoggingProvenance = false ∧
                    s1.mDoProvReenterException = s.mDoProvReenterException ∧
                    s1.mProvenanceDescLogEnabled = s.mProvenanceDescLogEnabled ∧
                    s1.mUndoRedoProvenanceDisable = s.mUndoRedoProvenanceDisable ∧
                    s1.mCommandDepth = s.mCommandDepth ∧
                    s1.mUndoRedoStack = s.mUndoRedoStack ∧
                    s1.lastExec = s.lastExec ∧ s1.progState = s.progState ∧
                    s1.replayLog = s.replayLog ∧ DescInv s1 := by
                rcases Bool.eq_false_or_eq_true s.mEnabled with henb | henb
                · obtain ⟨s1, h1, hprops⟩ :=
                    logExecution_suppressed s fname cmd.exempt args htmp hlog
                      hsup hdesc
                  refine ⟨s1, ?_, hprops⟩
                  simp only [engineStep]
                  rw [hreg]
                  simp only [henb, if_true, h1, except_bind_ok]
                · refine ⟨s, ?_, rfl, rfl, rfl, hlog, rfl, rfl,
                    rfl, rfl, rfl, rfl, rfl, rfl, hdesc⟩
                  simp only [engineStep]
                  rw [hreg]
                  simp only [henb, Bool.false_eq_true, if_false,
                    except_pure_eq_ok, except_bind_ok]
              cases hbody : cmd.body with
              | prim =>
                  rw [hbody] at hrunB
                  dsimp only at hrunB
                  have hrun : engineStep reg (fuel + 1) (.call fname args) s =
                      .ok (endCommand (runPrim fname args (beginCommand s1))) := by
                    rw [hrunB]; simp
                  constructor
                  · intro s' hok
                    rw [hrun] at hok
                    have hs' : s' =
                        endCommand (runPrim fname args (beginCommand s1)) :=
                      (Except.ok.inj hok).symm
                    subst hs'
                    refine ⟨by simp [endCommand, runPrim, beginCommand, h1enab],
                      by simp [endCommand, runPrim, beginCommand, h1temp, htmp],
                      by simp [endCommand, runPrim, beginCommand, h1logp],
                      by simp [endCommand, runPrim, beginCommand, h1reent],
                      by simp [endCommand, runPrim, beginCommand, h1descOn],
                      by simp [endCommand, runPrim, beginCommand, h1supp, hsup],
                      by simp [endCommand, runPrim, beginCommand, h1depth],
                      by simp [endCommand, runPrim, beginCommand, h1stack],
                      by simp [endCommand, runPrim, beginCommand, h1sp],
                      ?_,
                      by simp [endCommand, runPrim, beginCommand, h1lex],
                      by simp [endCommand, runPrim, beginCommand, h1rlog],
                      ?_⟩
                    · simp only [DescInv, endCommand, runPrim, beginCommand]
                      exact h1dinv
                    · refine ⟨[(fname, args)], by simp [effStep, hreg, hbody], ?_⟩
                      simp [endCommand, runPrim, beginCommand, applyWrites, h1prog]
                  · intro e t herr
                    rw [hrun] at herr
                    exact absurd herr (by simp)
              | comp calls =>
                  have hccalls : RegClosed reg →
                      CallOk reg (.seqCalls calls args) := by
                    intro hcl
                    intro cc hcc
                    exact hcl fname cmd hreg calls hbody cc hcc
                  have hpre := ih (.seqCalls calls args) (beginCommand s1)
                    (by simp [beginCommand, h1temp, htmp])
                    (by simp [beginCommand, h1logp])
                    (by simp [beginCommand, h1supp, hsup])
                    (by simpa [DescInv, beginCommand] using h1dinv)
                  rw [hbody] at hrunB
                  dsimp only at hrunB
                  constructor
                  · intro s' hok
                    rw [hrunB] at hok
                    cases hrec : engineStep reg fuel (.seqCalls calls args)
                        (beginCommand s1) with
                    | error et => rw [hrec] at hok; exact absurd hok (by simp)
                    | ok s2 =>
                        rw [hrec] at hok
                        have hs' : s' = endCommand s2 := by
                          simpa using hok.symm
                        subst hs'
                        have hso := hpre.1 s2 hrec
                        refine ⟨by simp [endCommand, hso.enab, beginCommand, h1enab],
                          by simp [endCommand, hso.temp],
                          by simp [endCommand, hso.logp],
                          by simp [endCommand, hso.reent, beginCommand, h1reent],
                          by simp [endCommand, hso.descOn, beginCommand, h1descOn],
                          by simp [endCommand, hso.supp],
                          ?_,
                          by simp [endCommand, hso.stack, beginCommand, h1stack],
                          by simp [endCommand, hso.sp, beginCommand, h1sp],
                          by simpa [DescInv, endCommand] using hso.dinv,
                          by simp [endCommand, hso.lex, beginCommand, h1lex],
                          by simp [endCommand, hso.rlog, beginCommand, h1rlog],
                          ?_⟩
                        · have := hso.depth
                          simp only [beginCommand] at this
                          simp only [endCommand, this, h1depth]
                          omega
                        · obtain ⟨l, hl, hprogl⟩ := hso.eff
                          refine ⟨l, by simp [effStep, hreg, hbody, hl], ?_⟩
                          simp only [endCommand]
                          rw [hprogl]
                          simp [beginCommand, h1prog]
                  · intro e t herr
                    rw [hrunB] at herr
                    cases hrec : engineStep reg fuel (.seqCalls calls args)
                        (beginCommand s1) with
                    | ok s2 => rw [hrec] at herr; exact absurd herr (by simp)
                    | error et =>
                        rw [hrec] at herr
                        have het : et = (e, t) := by
                          simpa using herr
                        subst het
                        have hse := hpre.2 e t hrec
                        refine ⟨⟨hse.1.kind,
                          by rw [hse.1.stack]; simp [beginCommand, h1stack],
                          by rw [hse.1.sp]; simp [beginCommand, h1sp],
                          hse.1.logp, hse.1.supp,
                          by rw [hse.1.lex]; simp [beginCommand, h1lex]⟩, ?_⟩
                        intro hcl _
                        exact hse.2 hcl (hccalls hcl)
      | seqCalls calls args =>
          cases calls with
          | nil =>
              constructor
              · intro s' hok
                have hs' : s' = s := by simpa [engineStep] using hok.symm
                subst hs'
                exact ⟨rfl, htmp, hlog, rfl, rfl, hsup, rfl, rfl, rfl, hdesc,
                  rfl, rfl, ⟨[], by simp [effStep], by simp [applyWrites]⟩⟩
              · intro e t herr
                exact absurd herr (by simp [engineStep])
          | cons hd tl =>
              obtain ⟨cname, f⟩ := hd
              have hpre1 := ih (.call cname (f args)) s htmp hlog hsup hdesc
              cases hrec1 : engineStep reg fuel (.call cname (f args)) s with
              | error et =>
                  have hrun : engineStep reg (fuel + 1)
                      (.seqCalls ((cname, f) :: tl) args) s = .error et := by
                    simp [engineStep, hrec1]
                  constructor
                  · intro s' hok
                    rw [hrun] at hok
                    exact absurd hok (by simp)
                  · intro e t herr
                    rw [hrun] at herr
                    have het : et = (e, t) := by simpa using herr
                    subst het
                    have hse := hpre1.2 e t hrec1
                    refine ⟨hse.1, ?_⟩
                    intro hcl hcall
                    refine hse.2 hcl ?_
                    have := hcall (cname, f) (by simp)
                    simpa [CallOk] using this
              | ok s1 =>
                  have hso1 := hpre1.1 s1 hrec1
                  have hpre2 := ih (.seqCalls tl args) s1 hso1.temp hso1.logp
                    hso1.supp hso1.dinv
                  have hrun : engineStep reg (fuel + 1)
                      (.seqCalls ((cname, f) :: tl) args) s =
                      engineStep reg fuel (.seqCalls tl args) s1 := by
                    simp [engineStep, hrec1]
                  constructor
                  · intro s' hok
                    rw [hrun] at hok
                    have hso2 := hpre2.1 s' hok
                    refine ⟨by rw [hso2.enab, hso1.enab],
                      hso2.temp, hso2.logp,
                      by rw [hso2.reent, hso1.reent],
                      by rw [hso2.descOn, hso1.descOn],
                      hso2.supp,
                      by rw [hso2.depth, hso1.depth],
                      by rw [hso2.stack, hso1.stack],
                      by rw [hso2.sp, hso1.sp],
                      hso2.dinv,
                      by rw [hso2.lex, hso1.lex],
                      by rw [hso2.rlog, hso1.rlog],
                      ?_⟩
                    obtain ⟨l1, hl1, hp1⟩ := hso1.eff
                    obtain ⟨l2, hl2, hp2⟩ := hso2.eff
                    refine ⟨l1 ++ l2, ?_, ?_⟩
                    · simp [effStep, hl1, hl2]
                    · rw [hp2, hp1, applyWrites_append]
                  · intro e t herr
                    rw [hrun] at herr
                    have hse := hpre2.2 e t herr
                    refine ⟨⟨hse.1.kind,
                      by rw [hse.1.stack, hso1.stack],
                      by rw [hse.1.sp, hso1.sp],
                      hse.1.logp, hse.1.supp,
                      by rw [hse.1.lex, hso1.lex]⟩, ?_⟩
                    intro hcl hcall
                    refine hse.2 hcl ?_
                    intro cc hcc
                    exact hcall cc (by simp [hcc])

/-- The set of targets a command writes does not depend on the parameters it
is invoked with: the write lists of two dispatches of the same names range
over the same target sequence. -/
theorem effStep_fst (reg : Registry) :
    ∀ (fuel : Nat) (c c' : EngineCall), sameShape c c' →
      ∀ l l', effStep reg fuel c = some l → effStep reg fuel c' = some l' →
        l.map Prod.fst = l'.map Prod.fst := by
  intro fuel
  induction fuel with
  | zero =>
      intro c c' _ l l' hl _
      exact absurd hl (by cases c <;> simp [effStep])
  | succ fuel ih =>
      intro c c' hshape l l' hl hl'
      cases c with
      | call fname args =>
          cases c' with
          | seqCalls cs as => exact absurd hshape (by simp [sameShape])
          | call fname' args' =>
              have hn : fname = fname' := hshape
              subst hn
              cases hreg : reg fname with
              | none =>
                  rw [effStep, hreg] at hl
                  exact absurd hl (by simp)
              | some cmd =>
                  rw [effStep, hreg] at hl hl'
                  dsimp only at hl hl'
                  cases hbody : cmd.body with
                  | prim =>
                      rw [hbody] at hl hl'
                      simp at hl hl'
                      subst hl; subst hl'
                      simp
                  | comp calls =>
                      rw [hbody] at hl hl'
                      dsimp only at hl hl'
                      exact ih (.seqCalls calls args) (.seqCalls calls args')
                        rfl l l' hl hl'
      | seqCalls calls args =>
          cases c' with
          | call fname' args' => exact absurd hshape (by simp [sameShape])
          | seqCalls calls' args' =>
              have hc : calls = calls' := hshape
              subst hc
              cases calls with
              | nil =>
                  rw [effStep] at hl hl'
                  simp at hl hl'
                  subst hl; subst hl'
                  simp
              | cons hd tl =>
                  obtain ⟨cname, f⟩ := hd
                  rw [effStep] at hl hl'
                  rcases h1 : effStep reg fuel (.call cname (f args)) with _ | l1
                  · rw [h1] at hl; exact absurd hl (by simp)
                  rcases h2 : effStep reg fuel (.seqCalls tl args) with _ | l2
                  · rw [h1, h2] at hl; exact absurd hl (by simp)
                  rcases h1' : effStep reg fuel (.call cname (f args')) with _ | l1'
                  · rw [h1'] at hl'; exact absurd hl' (by simp)
                  rcases h2' : effStep reg fuel (.seqCalls tl args') with _ | l2'
                  · rw [h1', h2'] at hl'; exact absurd hl' (by simp)
                  rw [h1, h2] at hl
                  rw [h1', h2'] at hl'
                  simp at hl hl'
                  subst hl; subst hl'
                  have e1 := ih (.call cname (f args)) (.call cname (f args'))
                    rfl l1 l1' h1 h1'
                  have e2 := ih (.seqCalls tl args) (.seqCalls tl args')
                    rfl l2 l2' h2 h2'
                  simp [e1, e2]

/-- What a successful `performUndoRedoOp` does: the undo/redo stack and
pointer are untouched, the flags end lowered, the command's last-exec store
is overwritten with the replayed parameters, the invocation is appended to
the ghost replay trace, and the tracked targets receive the command's write
list. -/
structure PerfOk (reg : Registry) (fuel : Nat) (funcName : String)
    (params : Params) (isUndo : Bool) (s s' : PState) : Prop where
  enab : s'.mEnabled = s.mEnabled
  temp : s'.mTemporarilyDisabled = false
  logp : s'.mLoggingProvenance = false
  reent : s'.mDoProvReenterException = s.mDoProvReenterException
  descOn : s'.mProvenanceDescLogEnabled = s.mProvenanceDescLogEnabled
  supp : s'.mUndoRedoProvenanceDisable = false
  depth : s'.mCommandDepth = s.mCommandDepth
  stack : s'.mUndoRedoStack = s.mUndoRedoStack
  sp : s'.mStackPointer = s.mStackPointer
  dinv : DescInv s'
  lex : s'.lastExec = fun n => if n = funcName then params else s.lastExec n
  rlog : s'.replayLog = s.replayLog ++ [(funcName, params, isUndo)]
  eff : ∃ l, execEff reg fuel funcName params = some l ∧
    s'.progState = applyWrites s.progState l

theorem performUndoRedoOp_spec (reg : Registry) (fuel : Nat)
    (funcName : String) (params : Params) (isUndo : Bool) (s : PState)
    (htmp : s.mTemporarilyDisabled = false)
    (hlog : s.mLoggingProvenance = false)
    (_hsup : s.mUndoRedoProvenanceDisable = false) (hdesc : DescInv s) :
    (∀ s', performUndoRedoOp reg fuel funcName params isUndo s = .ok s' →
      (reg funcName).isSome ∧ PerfOk reg fuel funcName params isUndo s s') ∧
    (∀ e t, performUndoRedoOp reg fuel funcName params isUndo s = .error (e, t) →
      (e = .invalidUndoOrRedo ∧ t = s ∧ reg funcName = none) ∨
      ((e = .unregistered ∨ e = .fuelOut) ∧ (reg funcName).isSome ∧
        t.mUndoRedoStack = s.mUndoRedoStack ∧
        t.mStackPointer = s.mStackPointer ∧
        t.mLoggingProvenance = false ∧
        t.mUndoRedoProvenanceDisable = true ∧
        (RegClosed reg → e = .fuelOut))) := by
  cases hreg : reg funcName with
  | none =>
      have h0 : performUndoRedoOp reg fuel funcName params isUndo s =
          .error (.invalidUndoOrRedo, s) := by
        simp [performUndoRedoOp, hreg]
      constructor
      · intro s' hok
        rw [h0] at hok
        exact absurd hok (by simp)
      · intro e t herr
        rw [h0] at herr
        have hpair := Except.error.inj herr
        injection hpair with he ht
        subst he; subst ht
        exact Or.inl ⟨rfl, rfl, rfl⟩
  | some cmd =>
      have hpre : ({ s with
          replayLog := s.replayLog ++ [(funcName, params, isUndo)],
          mUndoRedoProvenanceDisable := true } : PState).mTemporarilyDisabled
            = false := htmp
      have hs1 := engineStep_suppressed reg fuel (.call funcName params)
        { s with replayLog := s.replayLog ++ [(funcName, params, isUndo)],
                 mUndoRedoProvenanceDisable := true }
        htmp hlog rfl hdesc
      have hrun : performUndoRedoOp reg fuel funcName params isUndo s =
          (engineStep reg fuel (.call funcName params)
            { s with replayLog := s.replayLog ++ [(funcName, params, isUndo)],
                     mUndoRedoProvenanceDisable := true }) >>=
            (fun s2 => pure { s2 with
              mUndoRedoProvenanceDisable := false,
              lastExec := fun n => if n = funcName then params
                          else s2.lastExec n }) := by
        simp only [performUndoRedoOp, hreg, execFun]
      constructor
      · intro s' hok
        rw [hrun] at hok
        cases hrec : engineStep reg fuel (.call funcName params)
            { s with replayLog := s.replayLog ++ [(funcName, params, isUndo)],
                     mUndoRedoProvenanceDisable := true } with
        | error et => rw [hrec] at hok; exact absurd hok (by simp)
        | ok s2 =>
            rw [hrec] at hok
            have hs' : s' = { s2 with
                mUndoRedoProvenanceDisable := false,
                lastExec := fun n => if n = funcName then params
                            else s2.lastExec n } := by
              simpa using hok.symm
            subst hs'
            have hso := hs1.1 s2 hrec
            refine ⟨by simp [hreg], ?_⟩
            refine ⟨by simpa using hso.enab, by simpa using hso.temp,
              by simpa using hso.logp, by simpa using hso.reent,
              by simpa using hso.descOn, rfl,
              by simpa using hso.depth, by simpa using hso.stack,
              by simpa using hso.sp, ?_, ?_, ?_, ?_⟩
            · have := hso.dinv
              simpa [DescInv] using this
            · have hl := hso.lex
              simp only [] at hl
              simp [hl]
            · have := hso.rlog
              simpa using this
            · obtain ⟨l, hl, hp⟩ := hso.eff
              exact ⟨l, hl, by simpa using hp⟩
      · intro e t herr
        rw [hrun] at herr
        cases hrec : engineStep reg fuel (.call funcName params)
            { s with replayLog := s.replayLog ++ [(funcName, params, isUndo)],
                     mUndoRedoProvenanceDisable := true } with
        | ok s2 => rw [hrec] at herr; exact absurd herr (by simp)
        | error et =>
            rw [hrec] at herr
            have het : et = (e, t) := by simpa using herr
            subst het
            have hse := hs1.2 e t hrec
            refine Or.inr ⟨hse.1.kind, by simp [hreg],
              by simpa using hse.1.stack, by simpa using hse.1.sp,
              hse.1.logp, hse.1.supp, ?_⟩
            intro hcl
            have hne := hse.2 hcl (by simp [CallOk, hreg])
            rcases hse.1.kind with hk | hk
            · exact absurd hk hne
            · exact hk

/-- What the child-replay loop of `issueUndo` does on success. -/
structure ChildrenOk (reg : Registry) (fuel : Nat)
    (children : List UndoRedoItem) (s s' : PState) : Prop where
  enab : s'.mEnabled = s.mEnabled
  temp : s'.mTemporarilyDisabled = false
  logp : s'.mLoggingProvenance = false
  reent : s'.mDoProvReenterException = s.mDoProvReenterException
  descOn : s'.mProvenanceDescLogEnabled = s.mProvenanceDescLogEnabled
  supp : s'.mUndoRedoProvenanceDisable = false
  depth : s'.mCommandDepth = s.mCommandDepth
  stack : s'.mUndoRedoStack = s.mUndoRedoStack
  sp : s'.mStackPointer = s.mStackPointer
  dinv : DescInv s'
  allReg : ∀ c ∈ children, (reg c.function).isSome
  rlog : s'.replayLog = s.replayLog ++
    children.map (fun c => (c.function, c.undoParams, true))
  lexOff : ∀ v, v ∉ children.map UndoRedoItem.function →
    s'.lastExec v = s.lastExec v
  progOff : ∀ v,
    (∀ c ∈ children, ∀ lc,
      execEff reg fuel c.function c.undoParams = some lc →
        lastWrite lc v = none) →
    s'.progState v = s.progState v

theorem undoChildren_spec (reg : Registry) (fuel : Nat) :
    ∀ (children : List UndoRedoItem) (s : PState),
      s.mTemporarilyDisabled = false → s.mLoggingProvenance = false →
      s.mUndoRedoProvenanceDisable = false → DescInv s →
      (∀ s', undoChildren reg fuel children s = .ok s' →
        ChildrenOk reg fuel children s s') ∧
      (∀ e t, undoChildren reg fuel children s = .error (e, t) →
        (e = .invalidUndo ∨ e = .unregistered ∨ e = .fuelOut) ∧
        t.mUndoRedoStack = s.mUndoRedoStack ∧
        t.mStackPointer = s.mStackPointer ∧
        (e = .invalidUndo →
          (∃ c ∈ children, reg c.function = none) ∧
          t.mLoggingProvenance = false ∧
          t.mUndoRedoProvenanceDisable = false) ∧
        ((e = .unregistered ∨ e = .fuelOut) →
          t.mLoggingProvenance = false ∧
          t.mUndoRedoProvenanceDisable = true) ∧
        (RegClosed reg → e ≠ .unregistered)) := by
  intro children
  induction children with
  | nil =>
      intro s htmp hlog hsup hdesc
      constructor
      · intro s' hok
        have hs' : s' = s := by simpa [undoChildren] using hok.symm
        subst hs'
        exact ⟨rfl, htmp, hlog, rfl, rfl, hsup, rfl, rfl, rfl, hdesc,
          by simp, by simp, fun v _ => rfl, fun v _ => rfl⟩
      · intro e t herr
        exact absurd herr (by simp [undoChildren])
  | cons c rest ih =>
      intro s htmp hlog hsup hdesc
      have hperf := performUndoRedoOp_spec reg fuel c.function c.undoParams
        true s htmp hlog hsup hdesc
      have hrun : undoChildren reg fuel (c :: rest) s =
          rethrowUndo (performUndoRedoOp reg fuel c.function c.undoParams
            true s) >>= (fun s1 => undoChildren reg fuel rest s1) := by
        simp only [undoChildren]
      cases hrec : performUndoRedoOp reg fuel c.function c.undoParams true s with
      | ok s1 =>
          obtain ⟨hregc, hpo⟩ := hperf.1 s1 hrec
          have hih := ih s1 hpo.temp hpo.logp hpo.supp hpo.dinv
          have hrun2 : undoChildren reg fuel (c :: rest) s =
              undoChildren reg fuel rest s1 := by
            rw [hrun, hrec]
            simp [rethrowUndo]
          constructor
          · intro s' hok
            rw [hrun2] at hok
            have hco := hih.1 s' hok
            refine ⟨by rw [hco.enab, hpo.enab], hco.temp, hco.logp,
              by rw [hco.reent, hpo.reent], by rw [hco.descOn, hpo.descOn],
              hco.supp, by rw [hco.depth, hpo.depth],
              by rw [hco.stack, hpo.stack], by rw [hco.sp, hpo.sp],
              hco.dinv, ?_, ?_, ?_, ?_⟩
            · intro cc hcc
              rcases List.mem_cons.mp hcc with h | h
              · subst h; exact hregc
              · exact hco.allReg cc h
            · rw [hco.rlog, hpo.rlog]
              simp
            · intro v hv
              have hvne : v ≠ c.function := by
                intro hc; exact hv (by simp [hc])
              have hvrest : v ∉ rest.map UndoRedoItem.function := by
                intro hc; exact hv (by simp [hc])
              rw [hco.lexOff v hvrest, hpo.lex]
              simp [hvne]
            · intro v hv
              have hvrest : ∀ cc ∈ rest, ∀ lc,
                  execEff reg fuel cc.function cc.undoParams = some lc →
                    lastWrite lc v = none := by
                intro cc hcc lc hlc
                exact hv cc (List.mem_cons_of_mem _ hcc) lc hlc
              rw [hco.progOff v hvrest]
              obtain ⟨lc, hlc, hp⟩ := hpo.eff
              rw [hp, applyWrites_lastWrite,
                hv c (List.mem_cons_self _ _) lc hlc]
              rfl
          · intro e t herr
            rw [hrun2] at herr
            have hce := hih.2 e t herr
            refine ⟨hce.1, by rw [hce.2.1, hpo.stack],
              by rw [hce.2.2.1, hpo.sp], ?_, hce.2.2.2.2.1, hce.2.2.2.2.2⟩
            intro hiu
            obtain ⟨⟨cc, hcc, hccn⟩, hfl⟩ := hce.2.2.2.1 hiu
            exact ⟨⟨cc, List.mem_cons_of_mem _ hcc, hccn⟩, hfl⟩
      | error et =>
          obtain ⟨e0, t0⟩ := et
          have herr0 := hperf.2 e0 t0 hrec
          rcases herr0 with ⟨hk, ht0, hregn⟩ | ⟨hk, hregc, hst, hsp2, hlg, hsu, hcl⟩
          · -- the child's function table does not exist: rethrown as
            -- LuaProvenanceInvalidUndo
            rw [hk, ht0] at hrec
            have hrun2 : undoChildren reg fuel (c :: rest) s =
                .error (.invalidUndo, s) := by
              rw [hrun, hrec]
              simp [rethrowUndo]
            constructor
            · intro s' hok
              rw [hrun2] at hok
              exact absurd hok (by simp)
            · intro e t herr
              rw [hrun2] at herr
              have hpair := Except.error.inj herr
              injection hpair with he ht
              subst he; subst ht
              refine ⟨Or.inl rfl, rfl, rfl, ?_, ?_, ?_⟩
              · intro _
                exact ⟨⟨c, List.mem_cons_self _ _, hregn⟩, hlog, hsup⟩
              · intro hco
                rcases hco with hco | hco <;> exact absurd hco (by simp)
              · intro _ hco
                exact absurd hco (by simp)
          · -- the replayed invocation itself failed; the error passes through
            have hknot : e0 ≠ .invalidUndoOrRedo := by
              rcases hk with hk | hk <;> subst hk <;> simp
            have hrun2 : undoChildren reg fuel (c :: rest) s =
                .error (e0, t0) := by
              rw [hrun, hrec]
              rcases hk with hk | hk <;> subst hk <;> simp [rethrowUndo]
            constructor
            · intro s' hok
              rw [hrun2] at hok
              exact absurd hok (by simp)
            · intro e t herr
              rw [hrun2] at herr
              have hpair := Except.error.inj herr
              injection hpair with he ht
              subst he; subst ht
              refine ⟨Or.inr hk, hst, hsp2, ?_, fun _ => ⟨hlg, hsu⟩, ?_⟩
              · intro hiu
                rcases hk with hk | hk <;> rw [hiu] at hk <;>
                  exact absurd hk (by simp)
              · intro hclr
                have := hcl hclr
                rw [this]
                simp

/-- `issueUndo` with the stack pointer at the bottom throws
`LuaProvenanceInvalidUndo` and changes nothing at all. -/
theorem issueUndo_sp0 (reg : Registry) (fuel : Nat) (s : PState)
    (h : s.mStackPointer = 0) :
    issueUndo reg fuel s = .error (.invalidUndo, s) := by
  simp [issueUndo, h]

/-- What a successful `issueUndo` does, in terms of the entry `e0` below the
stack pointer: parent replayed first with its undo parameters, then every
child with its undo parameters in forward order (visible on the ghost replay
trace), the stack itself untouched, and the stack pointer decremented at the
very end. -/
structure UndoOk (reg : Registry) (fuel : Nat) (s s' : PState)
    (e0 : UndoRedoItem) : Prop where
  enab : s'.mEnabled = s.mEnabled
  temp : s'.mTemporarilyDisabled = false
  logp : s'.mLoggingProvenance = false
  reent : s'.mDoProvReenterException = s.mDoProvReenterException
  descOn : s'.mProvenanceDescLogEnabled = s.mProvenanceDescLogEnabled
  supp : s'.mUndoRedoProvenanceDisable = false
  depth : s'.mCommandDepth = s.mCommandDepth
  stack : s'.mUndoRedoStack = s.mUndoRedoStack
  sp : s'.mStackPointer = s.mStackPointer - 1
  dinv : DescInv s'
  parentReg : (reg e0.function).isSome
  childReg : ∀ c ∈ e0.childItems, (reg c.function).isSome
  rlog : s'.replayLog = s.replayLog ++ (e0.function, e0.undoParams, true) ::
    e0.childItems.map (fun c => (c.function, c.undoParams, true))
  lexOff : ∀ v, v ≠ e0.function →
    v ∉ e0.childItems.map UndoRedoItem.function →
    s'.lastExec v = s.lastExec v
  progChar : ∃ lu, execEff reg fuel e0.function e0.undoParams = some lu ∧
    ∀ v, lastWrite lu v = none →
      (∀ c ∈ e0.childItems, ∀ lc,
        execEff reg fuel c.function c.undoParams = some lc →
          lastWrite lc v = none) →
      s'.progState v = s.progState v

theorem issueUndo_ok_spec (reg : Registry) (fuel : Nat) (s : PState)
    (e0 : UndoRedoItem)
    (htmp : s.mTemporarilyDisabled = false)
    (hlog : s.mLoggingProvenance = false)
    (hsup : s.mUndoRedoProvenanceDisable = false) (hdesc : DescInv s)
    (hsppos : 0 < s.mStackPointer)
    (hget : s.mUndoRedoStack.get? (s.mStackPointer - 1) = some e0) :
    ∀ s', issueUndo reg fuel s = .ok s' → UndoOk reg fuel s s' e0 := by
  intro s' hok
  have hsp0 : ¬ s.mStackPointer = 0 := Nat.pos_iff_ne_zero.mp hsppos
  have hrun : issueUndo reg fuel s =
      rethrowUndo (performUndoRedoOp reg fuel e0.function e0.undoParams
        true s) >>= (fun s1 => undoChildren reg fuel e0.childItems s1 >>=
          (fun s2 => pure { s2 with mStackPointer := s2.mStackPointer - 1 })) := by
    simp only [issueUndo, hsp0, if_false, hget]
  rw [hrun] at hok
  have hperf := performUndoRedoOp_spec reg fuel e0.function e0.undoParams
    true s htmp hlog hsup hdesc
  cases hrec : performUndoRedoOp reg fuel e0.function e0.undoParams true s with
  | error et =>
      rw [hrec] at hok
      rcases het : rethrowUndo (.error et) with s2 | s2
      · rw [het] at hok
        exact absurd hok (by simp)
      · exact absurd het (by rcases et with ⟨e1, t1⟩; simp [rethrowUndo]; split <;> simp_all)
  | ok s1 =>
      rw [hrec] at hok
      rw [show rethrowUndo (.ok s1) = .ok s1 from rfl] at hok
      rw [except_bind_ok] at hok
      obtain ⟨hregp, hpo⟩ := hperf.1 s1 hrec
      have hch := undoChildren_spec reg fuel e0.childItems s1 hpo.temp
        hpo.logp hpo.supp hpo.dinv
      cases hrec2 : undoChildren reg fuel e0.childItems s1 with
      | error et => rw [hrec2] at hok; exact absurd hok (by simp)
      | ok s2 =>
          rw [hrec2] at hok
          have hs' : s' = { s2 with mStackPointer := s2.mStackPointer - 1 } := by
            simpa using hok.symm
          subst hs'
          have hco := hch.1 s2 hrec2
          refine ⟨by simp [hco.enab, hpo.enab], by simp [hco.temp],
            by simp [hco.logp], by simp [hco.reent, hpo.reent],
            by simp [hco.descOn, hpo.descOn], by simp [hco.supp],
            by simp [hco.depth, hpo.depth], by simp [hco.stack, hpo.stack],
            by simp [hco.sp, hpo.sp], by simpa [DescInv] using hco.dinv,
            hregp, hco.allReg, ?_, ?_, ?_⟩
          · show s2.replayLog = _
            rw [hco.rlog, hpo.rlog]
            simp
          · intro v hvp hvc
            show s2.lastExec v = _
            rw [hco.lexOff v hvc, hpo.lex]
            simp [hvp]
          · obtain ⟨lu, hlu, hp⟩ := hpo.eff
            refine ⟨lu, hlu, ?_⟩
            intro v hvu hvc
            show s2.progState v = _
            rw [hco.progOff v hvc, hp, applyWrites_lastWrite, hvu]
            rfl

theorem issueUndo_err_spec (reg : Registry) (fuel : Nat) (s : PState)
    (htmp : s.mTemporarilyDisabled = false)
    (hlog : s.mLoggingProvenance = false)
    (hsup : s.mUndoRedoProvenanceDisable = false) (hdesc : DescInv s)
    (hsplen : s.mStackPointer ≤ s.mUndoRedoStack.length) :
    ∀ e t, issueUndo reg fuel s = .error (e, t) →
      (e = .invalidUndo ∨ e = .unregistered ∨ e = .fuelOut) ∧
      t.mUndoRedoStack = s.mUndoRedoStack ∧
      t.mStackPointer = s.mStackPointer ∧
      (e = .invalidUndo →
        (s.mStackPointer = 0 ∨
          ∃ e0, s.mUndoRedoStack.get? (s.mStackPointer - 1) = some e0 ∧
            (reg e0.function = none ∨
              ∃ c ∈ e0.childItems, reg c.function = none)) ∧
        t.mLoggingProvenance = false ∧
        t.mUndoRedoProvenanceDisable = false) ∧
      ((e = .unregistered ∨ e = .fuelOut) →
        t.mLoggingProvenance = false ∧
        t.mUndoRedoProvenanceDisable = true) ∧
      (RegClosed reg → e ≠ .unregistered) := by
  intro e t herr
  rcases Nat.eq_zero_or_pos s.mStackPointer with hsp0 | hsppos
  · rw [issueUndo_sp0 reg fuel s hsp0] at herr
    have hpair := Except.error.inj herr
    injection hpair with he ht
    subst he; subst ht
    refine ⟨Or.inl rfl, rfl, rfl, fun _ => ⟨Or.inl hsp0, hlog, hsup⟩, ?_, ?_⟩
    · intro hco
      rcases hco with hco | hco <;> exact absurd hco (by simp)
    · intro _ hco
      exact absurd hco (by simp)
  · have hsp0 : ¬ s.mStackPointer = 0 := Nat.pos_iff_ne_zero.mp hsppos
    obtain ⟨e0, hget⟩ :
        ∃ e0, s.mUndoRedoStack.get? (s.mStackPointer - 1) = some e0 := by
      rw [List.get?_eq_getElem?]
      exact ⟨s.mUndoRedoStack[s.mStackPointer - 1],
        List.getElem?_eq_getElem (by omega)⟩
    have hrun : issueUndo reg fuel s =
        rethrowUndo (performUndoRedoOp reg fuel e0.function e0.undoParams
          true s) >>= (fun s1 => undoChildren reg fuel e0.childItems s1 >>=
            (fun s2 => pure { s2 with mStackPointer := s2.mStackPointer - 1 })) := by
      simp only [issueUndo, hsp0, if_false, hget]
    rw [hrun] at herr
    have hperf := performUndoRedoOp_spec reg fuel e0.function e0.undoParams
      true s htmp hlog hsup hdesc
    cases hrec : performUndoRedoOp reg fuel e0.function e0.undoParams true s with
    | error et =>
        obtain ⟨e1, t1⟩ := et
        have herr1 := hperf.2 e1 t1 hrec
        rcases herr1 with ⟨hk, ht1, hregn⟩ | ⟨hk, hregp, hst, hsp2, hlg, hsu, hcl⟩
        · rw [hk, ht1] at hrec
          rw [hrec] at herr
          have hre : rethrowUndo (.error (.invalidUndoOrRedo, s)) =
              .error (.invalidUndo, s) := rfl
          rw [hre] at herr
          rw [except_bind_error] at herr
          have hpair := Except.error.inj herr
          injection hpair with he ht
          subst he; subst ht
          refine ⟨Or.inl rfl, rfl, rfl, ?_, ?_, ?_⟩
          · intro _
            exact ⟨Or.inr ⟨e0, hget, Or.inl hregn⟩, hlog, hsup⟩
          · intro hco
            rcases hco with hco | hco <;> exact absurd hco (by simp)
          · intro _ hco
            exact absurd hco (by simp)
        · have hknot : rethrowUndo (.error (e1, t1)) = .error (e1, t1) := by
            rcases hk with hk | hk <;> subst hk <;> rfl
          rw [hrec, hknot, except_bind_error] at herr
          have hpair := Except.error.inj herr
          injection hpair with he ht
          subst he; subst ht
          refine ⟨Or.inr hk, hst, hsp2, ?_, fun _ => ⟨hlg, hsu⟩, ?_⟩
          · intro hiu
            rcases hk with hk | hk <;> rw [hiu] at hk <;>
              exact absurd hk (by simp)
          · intro hclr
            rw [hcl hclr]
            simp
    | ok s1 =>
        obtain ⟨hregp, hpo⟩ := hperf.1 s1 hrec
        rw [hrec] at herr
        rw [show rethrowUndo (.ok s1) = .ok s1 from rfl, except_bind_ok] at herr
        have hch := undoChildren_spec reg fuel e0.childItems s1 hpo.temp
          hpo.logp hpo.supp hpo.dinv
        cases hrec2 : undoChildren reg fuel e0.childItems s1 with
        | ok s2 =>
            rw [hrec2, except_bind_ok] at herr
            exact absurd herr (by simp)
        | error et =>
            obtain ⟨e1, t1⟩ := et
            rw [hrec2, except_bind_error] at herr
            have hpair := Except.error.inj herr
            injection hpair with he ht
            subst he; subst ht
            have hce := hch.2 e1 t1 hrec2
            refine ⟨hce.1, by rw [hce.2.1, hpo.stack],
              by rw [hce.2.2.1, hpo.sp], ?_, hce.2.2.2.2.1, hce.2.2.2.2.2⟩
            intro hiu
            obtain ⟨⟨cc, hcc, hccn⟩, hfl⟩ := hce.2.2.2.1 hiu
            exact ⟨Or.inr ⟨e0, hget, Or.inr ⟨cc, hcc, hccn⟩⟩, hfl⟩

/-- `issueRedo` with the stack pointer at the top throws
`LuaProvenanceInvalidRedo` and changes nothing at all. -/
theorem issueRedo_top (reg : Registry) (fuel : Nat) (s : PState)
    (h : s.mStackPointer = s.mUndoRedoStack.length) :
    issueRedo reg fuel s = .error (.invalidRedo, s) := by
  simp [issueRedo, h]

/-- What a successful `issueRedo` does, in terms of the entry `e0` at the
stack pointer: exactly one replay — the parent with its redo parameters,
no children — then the stack pointer is incremented. -/
structure RedoOk (reg : Registry) (fuel : Nat) (s s' : PState)
    (e0 : UndoRedoItem) : Prop where
  enab : s'.mEnabled = s.mEnabled
  temp : s'.mTemporarilyDisabled = false
  logp : s'.mLoggingProvenance = false
  reent : s'.mDoProvReenterException = s.mDoProvReenterException
  descOn : s'.mProvenanceDescLogEnabled = s.mProvenanceDescLogEnabled
  supp : s'.mUndoRedoProvenanceDisable = false
  depth : s'.mCommandDepth = s.mCommandDepth
  stack : s'.mUndoRedoStack = s.mUndoRedoStack
  sp : s'.mStackPointer = s.mStackPointer + 1
  dinv : DescInv s'
  parentReg : (reg e0.function).isSome
  rlog : s'.replayLog = s.replayLog ++ [(e0.function, e0.redoParams, false)]
  lex : s'.lastExec =
    fun n => if n = e0.function then e0.redoParams else s.lastExec n
  eff : ∃ lr, execEff reg fuel e0.function e0.redoParams = some lr ∧
    s'.progState = applyWrites s.progState lr

theorem issueRedo_ok_spec (reg : Registry) (fuel : Nat) (s : PState)
    (e0 : UndoRedoItem)
    (htmp : s.mTemporarilyDisabled = false)
    (hlog : s.mLoggingProvenance = false)
    (hsup : s.mUndoRedoProvenanceDisable = false) (hdesc : DescInv s)
    (hne : s.mStackPointer ≠ s.mUndoRedoStack.length)
    (hget : s.mUndoRedoStack.get? s.mStackPointer = some e0) :
    ∀ s', issueRedo reg fuel s = .ok s' → RedoOk reg fuel s s' e0 := by
  intro s' hok
  have hrun : issueRedo reg fuel s =
      rethrowRedo (performUndoRedoOp reg fuel e0.function e0.redoParams
        false s) >>= (fun s1 =>
          pure { s1 with mStackPointer := s1.mStackPointer + 1 }) := by
    simp only [issueRedo, hne, if_false, hget]
  rw [hrun] at hok
  have hperf := performUndoRedoOp_spec reg fuel e0.function e0.redoParams
    false s htmp hlog hsup hdesc
  cases hrec : performUndoRedoOp reg fuel e0.function e0.redoParams false s with
  | error et =>
      rw [hrec] at hok
      rcases het : rethrowRedo (.error et) with s2 | s2
      · rw [het] at hok
        exact absurd hok (by simp)
      · exact absurd het
          (by rcases et with ⟨e1, t1⟩; simp [rethrowRedo]; split <;> simp_all)
  | ok s1 =>
      rw [hrec, show rethrowRedo (.ok s1) = .ok s1 from rfl,
        except_bind_ok] at hok
      obtain ⟨hregp, hpo⟩ := hperf.1 s1 hrec
      have hs' : s' = { s1 with mStackPointer := s1.mStackPointer + 1 } := by
        simpa using hok.symm
      subst hs'
      refine ⟨by simp [hpo.enab], by simp [hpo.temp], by simp [hpo.logp],
        by simp [hpo.reent], by simp [hpo.descOn], by simp [hpo.supp],
        by simp [hpo.depth], by simp [hpo.stack], by simp [hpo.sp],
        by simpa [DescInv] using hpo.dinv, hregp, ?_, ?_, ?_⟩
      · show s1.replayLog = _
        exact hpo.rlog
      · show s1.lastExec = _
        exact hpo.lex
      · obtain ⟨lr, hlr, hp⟩ := hpo.eff
        exact ⟨lr, hlr, hp⟩

theorem issueRedo_err_spec (reg : Registry) (fuel : Nat) (s : PState)
    (htmp : s.mTemporarilyDisabled = false)
    (hlog : s.mLoggingProvenance = false)
    (hsup : s.mUndoRedoProvenanceDisable = false) (hdesc : DescInv s)
    (hsplen : s.mStackPointer ≤ s.mUndoRedoStack.length) :
    ∀ e t, issueRedo reg fuel s = .error (e, t) →
      (e = .invalidRedo ∨ e = .unregistered ∨ e = .fuelOut) ∧
      t.mUndoRedoStack = s.mUndoRedoStack ∧
      t.mStackPointer = s.mStackPointer ∧
      (e = .invalidRedo →
        (s.mStackPointer = s.mUndoRedoStack.length ∨
          ∃ e0, s.mUndoRedoStack.get? s.mStackPointer = some e0 ∧
            reg e0.function = none) ∧
        t.mLoggingProvenance = false ∧
        t.mUndoRedoProvenanceDisable = false) ∧
      ((e = .unregistered ∨ e = .fuelOut) →
        t.mLoggingProvenance = false ∧
        t.mUndoRedoProvenanceDisable = true) ∧
      (RegClosed reg → e ≠ .unregistered) := by
  intro e t herr
  by_cases htop : s.mStackPointer = s.mUndoRedoStack.length
  · rw [issueRedo_top reg fuel s htop] at herr
    have hpair := Except.error.inj herr
    injection hpair with he ht
    subst he; subst ht
    refine ⟨Or.inl rfl, rfl, rfl, fun _ => ⟨Or.inl htop, hlog, hsup⟩, ?_, ?_⟩
    · intro hco
      rcases hco with hco | hco <;> exact absurd hco (by simp)
    · intro _ hco
      exact absurd hco (by simp)
  · obtain ⟨e0, hget⟩ :
        ∃ e0, s.mUndoRedoStack.get? s.mStackPointer = some e0 := by
      rw [List.get?_eq_getElem?]
      exact ⟨s.mUndoRedoStack[s.mStackPointer],
        List.getElem?_eq_getElem (by omega)⟩
    have hrun : issueRedo reg fuel s =
        rethrowRedo (performUndoRedoOp reg fuel e0.function e0.redoParams
          false s) >>= (fun s1 =>
            pure { s1 with mStackPointer := s1.mStackPointer + 1 }) := by
      simp only [issueRedo, htop, if_false, hget]
    rw [hrun] at herr
    have hperf := performUndoRedoOp_spec reg fuel e0.function e0.redoParams
      false s htmp hlog hsup hdesc
    cases hrec : performUndoRedoOp reg fuel e0.function e0.redoParams false s with
    | ok s1 =>
        rw [hrec, show rethrowRedo (.ok s1) = .ok s1 from rfl,
          except_bind_ok] at herr
        exact absurd herr (by simp)
    | error et =>
        obtain ⟨e1, t1⟩ := et
        have herr1 := hperf.2 e1 t1 hrec
        rcases herr1 with ⟨hk, ht1, hregn⟩ | ⟨hk, hregp, hst, hsp2, hlg, hsu, hcl⟩
        · rw [hk, ht1] at hrec
          rw [hrec] at herr
          have hre : rethrowRedo (.error (.invalidUndoOrRedo, s)) =
              .error (.invalidRedo, s) := rfl
          rw [hre, except_bind_error] at herr
          have hpair := Except.error.inj herr
          injection hpair with he ht
          subst he; subst ht
          refine ⟨Or.inl rfl, rfl, rfl, ?_, ?_, ?_⟩
          · intro _
            exact ⟨Or.inr ⟨e0, hget, hregn⟩, hlog, hsup⟩
          · intro hco
            rcases hco with hco | hco <;> exact absurd hco (by simp)
          · intro _ hco
            exact absurd hco (by simp)
        · have hknot : rethrowRedo (.error (e1, t1)) = .error (e1, t1) := by
            rcases hk with hk | hk <;> subst hk <;> rfl
          rw [hrec, hknot, except_bind_error] at herr
          have hpair := Except.error.inj herr
          injection hpair with he ht
          subst he; subst ht
          refine ⟨Or.inr hk, hst, hsp2, ?_, fun _ => ⟨hlg, hsu⟩, ?_⟩
          · intro hiu
            rcases hk with hk | hk <;> rw [hiu] at hk <;>
              exact absurd hk (by simp)
          · intro hclr
            rw [hcl hclr]
            simp

/-! ### Invariant preservation over the script-facing interface -/

/-- Any successful unsuppressed `logExecution` preserves the controller
invariant fields: the logging flag ends lowered, depth and enablement are
untouched, and the stack pointer stays within the stack. -/
theorem logExecution_ok_inv (s : PState) (fname : String) (ex : Bool)
    (p : Params) (htmp : s.mTemporarilyDisabled = false)
    (hlog : s.mLoggingProvenance = false)
    (hsup : s.mUndoRedoProvenanceDisable = false)
    (hsplen : s.mStackPointer ≤ s.mUndoRedoStack.length) :
    ∀ s', logExecution s fname ex p = .ok s' →
      s'.mEnabled = s.mEnabled ∧
      s'.mTemporarilyDisabled = false ∧
      s'.mLoggingProvenance = false ∧
      s'.mUndoRedoProvenanceDisable = false ∧
      s'.mCommandDepth = s.mCommandDepth ∧
      s'.mStackPointer ≤ s'.mUndoRedoStack.length := by
  intro s' h
  have htake : (s.mUndoRedoStack.take s.mStackPointer).length = s.mStackPointer := by
    rw [List.length_take]
    exact Nat.min_eq_left hsplen
  rcases Bool.eq_false_or_eq_true ex with hex | hex
  all_goals subst hex
  · -- exempt command: only the description list may change
    obtain ⟨s1, h1, p1, p2, p3, p4, p5, p6, p7, p8, p9, p10, p11, p12, p13⟩ :=
      logExecution_exempt s fname p htmp hlog hsup
    rw [h1] at h
    have hs' : s' = s1 := (Except.ok.inj h).symm
    subst hs'
    refine ⟨p1, by rw [p2, htmp], p4, by rw [p7, hsup], p8, ?_⟩
    rw [p3, p9]
    exact hsplen
  · -- recording command
    rcases Bool.eq_false_or_eq_true (s.mCommandDepth == 0) with hd | hd
    · have hdepth : s.mCommandDepth ≠ 0 → 0 < s.mStackPointer := by
        intro hc
        exact absurd ((beq_iff_eq (a := s.mCommandDepth) (b := (0:Int))).mp hd) hc
      obtain ⟨s1, h1, q1, q2, q3, q4, q5, q6, q7, q8, q9, q10, q11, q12,
        q13, q14⟩ :=
        logExecution_record s fname p htmp hlog hsup hsplen hdepth
      rw [h1] at h
      have hs' : s' = s1 := (Except.ok.inj h).symm
      subst hs'
      exact ⟨q1, by rw [q2, htmp], q3, by rw [q6, hsup], q7, q14⟩
    · -- depth non-zero: the code asserts a non-empty truncated stack; a
      -- successful call therefore had a positive stack pointer
      by_cases hsppos : 0 < s.mStackPointer
      · have hdepth : s.mCommandDepth ≠ 0 → 0 < s.mStackPointer := fun _ => hsppos
        obtain ⟨s1, h1, q1, q2, q3, q4, q5, q6, q7, q8, q9, q10, q11, q12,
          q13, q14⟩ :=
          logExecution_record s fname p htmp hlog hsup hsplen hdepth
        rw [h1] at h
        have hs' : s' = s1 := (Except.ok.inj h).symm
        subst hs'
        exact ⟨q1, by rw [q2, htmp], q3, by rw [q6, hsup], q7, q14⟩
      · -- stack pointer zero and depth non-zero: the assert fires, so no
        -- ok result is possible
        exfalso
        have hsp0 : s.mStackPointer = 0 := by omega
        have hdne : (s.mCommandDepth == 0) = false := hd
        have htn : s.mUndoRedoStack.take s.mStackPointer = [] := by
          rw [hsp0]
          simp
        have hnotlt : ¬ s.mUndoRedoStack.length < s.mStackPointer :=
          Nat.not_lt.mpr hsplen
        rcases Bool.eq_false_or_eq_true s.mProvenanceDescLogEnabled with hdl | hdl
        · simp [logExecution, htmp, hlog, hsup, hdl, hnotlt, hdne, htn] at h
        · simp [logExecution, htmp, hlog, hsup, hdl, hnotlt, hdne, htn] at h

/-- Any successful engine dispatch outside replay suppression preserves the
controller invariant fields.  When the controller is disabled, the undo/redo
stack and pointer are not touched at all. -/
theorem engineStep_unsuppressed (reg : Registry) :
    ∀ (fuel : Nat) (c : EngineCall) (s : PState),
      s.mTemporarilyDisabled = false → s.mLoggingProvenance = false →
      s.mUndoRedoProvenanceDisable = false →
      s.mStackPointer ≤ s.mUndoRedoStack.length →
      ∀ s', engineStep reg fuel c s = .ok s' →
        s'.mEnabled = s.mEnabled ∧
        s'.mTemporarilyDisabled = false ∧
        s'.mLoggingProvenance = false ∧
        s'.mUndoRedoProvenanceDisable = false ∧
        s'.mCommandDepth = s.mCommandDepth ∧
        s'.mStackPointer ≤ s'.mUndoRedoStack.length ∧
        (s.mEnabled = false →
          s'.mUndoRedoStack = s.mUndoRedoStack ∧
          s'.mStackPointer = s.mStackPointer) := by
  intro fuel
  induction fuel with
  | zero =>
      intro c s _ _ _ _ s' hok
      have h0 : engineStep reg 0 c s = .error (.fuelOut, s) := by
        cases c <;> rfl
      rw [h0] at hok
      exact absurd hok (by simp)
  | succ fuel ih =>
      intro c s htmp hlog hsup hsplen s' hok
      cases c with
      | call fname args =>
          cases hreg : reg fname with
          | none =>
              rw [show engineStep reg (fuel + 1) (.call fname args) s =
                  .error (.unregistered, s) by simp [engineStep, hreg]] at hok
              exact absurd hok (by simp)
          | some cmd =>
              rcases Bool.eq_false_or_eq_true s.mEnabled with henb | henb
              · -- the controller is consulted, then the body runs
                have hrunB : engineStep reg (fuel + 1) (.call fname args) s =
                    (logExecution s fname cmd.exempt args) >>= (fun s1 =>
                      (match cmd.body with
                       | .prim =>
                           (pure (endCommand (runPrim fname args (beginCommand s1)))
                             : PResult)
                       | .comp calls =>
                           engineStep reg fuel (.seqCalls calls args)
                             (beginCommand s1) >>=
                             (fun s2 => pure (endCommand s2)))) := by
                  simp only [engineStep]
                  rw [hreg]
                  simp only [henb, if_true, except_bind_ok]
                rw [hrunB] at hok
                cases hrec1 : logExecution s fname cmd.exempt args with
                | error et => rw [hrec1] at hok; exact absurd hok (by simp)
                | ok s1 =>
                    rw [hrec1, except_bind_ok] at hok
                    obtain ⟨j1, j2, j3, j4, j5, j6⟩ :=
                      logExecution_ok_inv s fname cmd.exempt args htmp hlog
                        hsup hsplen s1 hrec1
                    cases hbody : cmd.body with
                    | prim =>
                        rw [hbody] at hok
                        dsimp only at hok
                        have hs' : s' =
                            endCommand (runPrim fname args (beginCommand s1)) := by
                          simpa using hok.symm
                        subst hs'
                        refine ⟨by simp [endCommand, runPrim, beginCommand, j1],
                          by simp [endCommand, runPrim, beginCommand, j2],
                          by simp [endCommand, runPrim, beginCommand, j3],
                          by simp [endCommand, runPrim, beginCommand, j4],
                          by simp [endCommand, runPrim, beginCommand, j5],
                          by simpa [endCommand, runPrim, beginCommand] using j6,
                          ?_⟩
                        intro hco
                        rw [hco] at henb
                        exact absurd henb (by simp)
                    | comp calls =>
                        rw [hbody] at hok
                        dsimp only at hok
                        cases hrec2 : engineStep reg fuel (.seqCalls calls args)
                            (beginCommand s1) with
                        | error et =>
                            rw [hrec2] at hok
                            exact absurd hok (by simp)
                        | ok s2 =>
                            rw [hrec2, except_bind_ok] at hok
                            have hs' : s' = endCommand s2 := by
                              simpa using hok.symm
                            subst hs'
                            obtain ⟨k1, k2, k3, k4, k5, k6, k7⟩ :=
                              ih (.seqCalls calls args) (beginCommand s1)
                                (by simpa [beginCommand] using j2)
                                (by simpa [beginCommand] using j3)
                                (by simpa [beginCommand] using j4)
                                (by simpa [beginCommand] using j6)
                                s2 hrec2
                            refine ⟨by simpa [endCommand, beginCommand, j1] using k1,
                              by simpa [endCommand] using k2,
                              by simpa [endCommand] using k3,
                              by simpa [endCommand] using k4,
                              ?_,
                              by simpa [endCommand] using k6,
                              ?_⟩
                            · have : s2.mCommandDepth =
                                  (beginCommand s1).mCommandDepth := k5
                              simp only [beginCommand] at this
                              simp only [endCommand, this, j5]
                              omega
                            · intro hco
                              rw [hco] at henb
                              exact absurd henb (by simp)
              · -- the controller is disabled: no logging, body only
                have hrunB : engineStep reg (fuel + 1) (.call fname args) s =
                    (match cmd.body with
                     | .prim =>
                         (pure (endCommand (runPrim fname args (beginCommand s)))
                           : PResult)
                     | .comp calls =>
                         engineStep reg fuel (.seqCalls calls args)
                           (beginCommand s) >>=
                           (fun s2 => pure (endCommand s2))) := by
                  simp only [engineStep]
                  rw [hreg]
                  simp only [henb, Bool.false_eq_true, if_false,
                    except_pure_eq_ok, except_bind_ok]
                rw [hrunB] at hok
                cases hbody : cmd.body with
                | prim =>
                    rw [hbody] at hok
                    dsimp only at hok
                    have hs' : s' =
                        endCommand (runPrim fname args (beginCommand s)) := by
                      simpa using hok.symm
                    subst hs'
                    refine ⟨by simp [endCommand, runPrim, beginCommand],
                      by simp [endCommand, runPrim, beginCommand, htmp],
                      by simp [endCommand, runPrim, beginCommand, hlog],
                      by simp [endCommand, runPrim, beginCommand, hsup],
                      by simp [endCommand, runPrim, beginCommand],
                      by simpa [endCommand, runPrim, beginCommand] using hsplen,
                      fun _ => ⟨by simp [endCommand, runPrim, beginCommand],
                        by simp [endCommand, runPrim, beginCommand]⟩⟩
                | comp calls =>
                    rw [hbody] at hok
                    dsimp only at hok
                    cases hrec2 : engineStep reg fuel (.seqCalls calls args)
                        (beginCommand s) with
                    | error et =>
                        rw [hrec2] at hok
                        exact absurd hok (by simp)
                    | ok s2 =>
                        rw [hrec2, except_bind_ok] at hok
                        have hs' : s' = endCommand s2 := by
                          simpa using hok.symm
                        subst hs'
                        obtain ⟨k1, k2, k3, k4, k5, k6, k7⟩ :=
                          ih (.seqCalls calls args) (beginCommand s)
                            (by simpa [beginCommand] using htmp)
                            (by simpa [beginCommand] using hlog)
                            (by simpa [beginCommand] using hsup)
                            (by simpa [beginCommand] using hsplen)
                            s2 hrec2
                        have hframe := k7 (by simpa [beginCommand] using henb)
                        refine ⟨by simpa [endCommand, beginCommand] using k1,
                          by simpa [endCommand] using k2,
                          by simpa [endCommand] using k3,
                          by simpa [endCommand] using k4,
                          ?_,
                          by simpa [endCommand] using k6,
                          fun _ => ⟨by simpa [endCommand, beginCommand] using hframe.1,
                            by simpa [endCommand, beginCommand] using hframe.2⟩⟩
                        have : s2.mCommandDepth = (beginCommand s).mCommandDepth := k5
                        simp only [beginCommand] at this
                        simp only [endCommand, this]
                        omega
      | seqCalls calls args =>
          cases calls with
          | nil =>
              have hs' : s' = s := by simpa [engineStep] using hok.symm
              subst hs'
              exact ⟨rfl, htmp, hlog, hsup, rfl, hsplen, fun _ => ⟨rfl, rfl⟩⟩
          | cons hd tl =>
              obtain ⟨cname, f⟩ := hd
              rw [show engineStep reg (fuel + 1)
                  (.seqCalls ((cname, f) :: tl) args) s =
                  engineStep reg fuel (.call cname (f args)) s >>=
                    (fun s1 => engineStep reg fuel (.seqCalls tl args) s1) by
                simp only [engineStep]] at hok
              cases hrec1 : engineStep reg fuel (.call cname (f args)) s with
              | error et => rw [hrec1] at hok; exact absurd hok (by simp)
              | ok s1 =>
                  rw [hrec1, except_bind_ok] at hok
                  obtain ⟨k1, k2, k3, k4, k5, k6, k7⟩ :=
                    ih (.call cname (f args)) s htmp hlog hsup hsplen s1 hrec1
                  obtain ⟨m1, m2, m3, m4, m5, m6, m7⟩ :=
                    ih (.seqCalls tl args) s1 k2 k3 k4 k6 s' hok
                  refine ⟨by rw [m1, k1], m2, m3, m4, by rw [m5, k5], m6, ?_⟩
                  intro hco
                  have hk := k7 hco
                  have hm := m7 (by rw [m1] at *; rw [k1, hco])
                  exact ⟨by rw [hm.1, hk.1], by rw [hm.2, hk.2]⟩

/-- Every script-facing step preserves the controller invariant. -/
theorem runOp_inv (reg : Registry) (fuel : Nat) (op : Op) (s s' : PState)
    (hInv : Inv s) (h : runOp reg fuel op s = .ok s') : Inv s' := by
  obtain ⟨htmp, hlog, hsup, hdepth, hsplen, hdis⟩ := hInv
  cases op with
  | exec n a =>
      simp only [runOp, execFun] at h
      obtain ⟨k1, k2, k3, k4, k5, k6, k7⟩ :=
        engineStep_unsuppressed reg fuel (.call n a) s htmp hlog hsup hsplen
          s' h
      refine ⟨k2, k3, k4, by rw [k5, hdepth], k6, ?_⟩
      intro hco
      rw [k1] at hco
      obtain ⟨hd1, hd2⟩ := hdis hco
      obtain ⟨hf1, hf2⟩ := k7 hco
      exact ⟨by rw [hf1, hd1], by rw [hf2, hd2]⟩
  | undo =>
      simp only [runOp] at h
      rcases Bool.eq_false_or_eq_true s.mEnabled with henb | henb
      · -- enabled: description line, then the undo body in depth brackets
        obtain ⟨s1, h1, p1, p2, p3, p4, p5, p6, p7, p8, p9, p10, p11, p12,
          p13⟩ := logExecution_exempt s "provenance.undo" [] htmp hlog hsup
        have hrun : scriptUndo reg fuel s =
            issueUndo reg fuel (beginCommand s1) >>=
              (fun s2 => pure (endCommand s2)) := by
          simp only [scriptUndo, henb, if_true, h1, except_bind_ok]
        rw [hrun] at h
        cases hrec : issueUndo reg fuel (beginCommand s1) with
        | error et => rw [hrec] at h; exact absurd h (by simp)
        | ok s2 =>
            rw [hrec, except_bind_ok] at h
            have hs' : s' = endCommand s2 := by simpa using h.symm
            subst hs'
            have hsppos : 0 < (beginCommand s1).mStackPointer := by
              by_contra hc
              have hz : (beginCommand s1).mStackPointer = 0 := by omega
              rw [issueUndo_sp0 reg fuel _ hz] at hrec
              exact absurd hrec (by simp)
            obtain ⟨e0, hget⟩ : ∃ e0,
                (beginCommand s1).mUndoRedoStack.get?
                  ((beginCommand s1).mStackPointer - 1) = some e0 := by
              rw [List.get?_eq_getElem?]
              refine ⟨(beginCommand s1).mUndoRedoStack[
                (beginCommand s1).mStackPointer - 1]?.getD
                  ⟨"", [], [], []⟩, ?_⟩
              have hlt : (beginCommand s1).mStackPointer - 1 <
                  (beginCommand s1).mUndoRedoStack.length := by
                simp only [beginCommand] at *
                rw [p3, p9] at *
                omega
              rw [List.getElem?_eq_getElem hlt]
              simp [List.getElem?_eq_getElem hlt]
            have huo := issueUndo_ok_spec reg fuel (beginCommand s1) e0
              (by simpa [beginCommand] using by rw [p2]; exact htmp)
              (by simpa [beginCommand] using p4)
              (by simpa [beginCommand] using by rw [p7]; exact hsup)
              (by simpa [DescInv, beginCommand] using p13)
              hsppos hget s2 hrec
            refine ⟨by simpa [endCommand] using huo.temp,
              by simpa [endCommand] using huo.logp,
              by simpa [endCommand] using huo.supp, ?_, ?_, ?_⟩
            · have hd2 : s2.mCommandDepth = (beginCommand s1).mCommandDepth :=
                huo.depth
              simp only [beginCommand] at hd2
              simp only [endCommand, hd2, p8, hdepth]
              omega
            · have hstk : s2.mUndoRedoStack =
                  (beginCommand s1).mUndoRedoStack := huo.stack
              have hsp2 : s2.mStackPointer =
                  (beginCommand s1).mStackPointer - 1 := huo.sp
              simp only [endCommand, hstk, hsp2, beginCommand, p3, p9]
              omega
            · intro hco
              exfalso
              have : s2.mEnabled = (beginCommand s1).mEnabled := huo.enab
              simp only [endCommand] at hco
              rw [hco] at this
              simp only [beginCommand, p1] at this
              rw [henb] at this
              exact Bool.noConfusion this.symm
      · -- disabled: the stack is empty, so the undo body throws
        exfalso
        have hz : (beginCommand s).mStackPointer = 0 := by
          simpa [beginCommand] using (hdis henb).2
        have hrun : scriptUndo reg fuel s =
            issueUndo reg fuel (beginCommand s) >>=
              (fun s2 => pure (endCommand s2)) := by
          simp only [scriptUndo, henb, Bool.false_eq_true, if_false,
            except_pure_eq_ok, except_bind_ok]
        rw [hrun, issueUndo_sp0 reg fuel _ hz] at h
        exact absurd h (by simp)
  | redo =>
      simp only [runOp] at h
      rcases Bool.eq_false_or_eq_true s.mEnabled with henb | henb
      · obtain ⟨s1, h1, p1, p2, p3, p4, p5, p6, p7, p8, p9, p10, p11, p12,
          p13⟩ := logExecution_exempt s "provenance.redo" [] htmp hlog hsup
        have hrun : scriptRedo reg fuel s =
            issueRedo reg fuel (beginCommand s1) >>=
              (fun s2 => pure (endCommand s2)) := by
          simp only [scriptRedo, henb, if_true, h1, except_bind_ok]
        rw [hrun] at h
        cases hrec : issueRedo reg fuel (beginCommand s1) with
        | error et => rw [hrec] at h; exact absurd h (by simp)
        | ok s2 =>
            rw [hrec, except_bind_ok] at h
            have hs' : s' = endCommand s2 := by simpa using h.symm
            subst hs'
            have hne : (beginCommand s1).mStackPointer ≠
                (beginCommand s1).mUndoRedoStack.length := by
              intro hc
              rw [issueRedo_top reg fuel _ hc] at hrec
              exact absurd hrec (by simp)
            obtain ⟨e0, hget⟩ : ∃ e0,
                (beginCommand s1).mUndoRedoStack.get?
                  (beginCommand s1).mStackPointer = some e0 := by
              rw [List.get?_eq_getElem?]
              have ha : (beginCommand s1).mStackPointer = s.mStackPointer := by
                simp [beginCommand, p3]
              have hb : (beginCommand s1).mUndoRedoStack = s.mUndoRedoStack := by
                simp [beginCommand, p9]
              have hlt : (beginCommand s1).mStackPointer <
                  (beginCommand s1).mUndoRedoStack.length := by
                rw [ha, hb] at hne ⊢
                omega
              exact ⟨(beginCommand s1).mUndoRedoStack[
                (beginCommand s1).mStackPointer],
                List.getElem?_eq_getElem hlt⟩
            have hro := issueRedo_ok_spec reg fuel (beginCommand s1) e0
              (by simpa [beginCommand] using by rw [p2]; exact htmp)
              (by simpa [beginCommand] using p4)
              (by simpa [beginCommand] using by rw [p7]; exact hsup)
              (by simpa [DescInv, beginCommand] using p13)
              hne hget s2 hrec
            have hlt : (beginCommand s1).mStackPointer <
                (beginCommand s1).mUndoRedoStack.length := by
              have hle : (beginCommand s1).mStackPointer ≤
                  (beginCommand s1).mUndoRedoStack.length := by
                simp only [beginCommand, p3, p9]
                exact hsplen
              omega
            refine ⟨by simpa [endCommand] using hro.temp,
              by simpa [endCommand] using hro.logp,
              by simpa [endCommand] using hro.supp, ?_, ?_, ?_⟩
            · have hd2 : s2.mCommandDepth = (beginCommand s1).mCommandDepth :=
                hro.depth
              simp only [beginCommand] at hd2
              simp only [endCommand, hd2, p8, hdepth]
              omega
            · have hstk : s2.mUndoRedoStack =
                  (beginCommand s1).mUndoRedoStack := hro.stack
              have hsp2 : s2.mStackPointer =
                  (beginCommand s1).mStackPointer + 1 := hro.sp
              simp only [endCommand, hstk, hsp2]
              omega
            · intro hco
              exfalso
              have : s2.mEnabled = (beginCommand s1).mEnabled := hro.enab
              simp only [endCommand] at hco
              rw [hco] at this
              simp only [beginCommand, p1] at this
              rw [henb] at this
              exact Bool.noConfusion this.symm
      · exfalso
        have hz : (beginCommand s).mStackPointer =
            (beginCommand s).mUndoRedoStack.length := by
          have h1 := (hdis henb).1
          have h2 := (hdis henb).2
          simp [beginCommand, h1, h2]
        have hrun : scriptRedo reg fuel s =
            issueRedo reg fuel (beginCommand s) >>=
              (fun s2 => pure (endCommand s2)) := by
          simp only [scriptRedo, henb, Bool.false_eq_true, if_false,
            except_pure_eq_ok, except_bind_ok]
        rw [hrun, issueRedo_top reg fuel _ hz] at h
        exact absurd h (by simp)
  | enable b =>
      simp only [runOp] at h
      rcases Bool.eq_false_or_eq_true s.mEnabled with henb | henb
      · obtain ⟨s1, h1, p1, p2, p3, p4, p5, p6, p7, p8, p9, p10, p11, p12,
          p13⟩ := logExecution_exempt s "provenance.enable"
            [LuaValue.boolean b] htmp hlog hsup
        have hs' : s' = endCommand (setEnabled (beginCommand s1) b) := by
          have hrun : scriptSetEnabled reg fuel b s =
              .ok (endCommand (setEnabled (beginCommand s1) b)) := by
            simp only [scriptSetEnabled, henb, if_true, h1, except_bind_ok,
              except_pure_eq_ok]
          rw [hrun] at h
          exact (Except.ok.inj h).symm
        subst hs'
        rcases Bool.eq_false_or_eq_true b with hb | hb
        all_goals subst hb
        · -- enabling (or keeping enabled): nothing is cleared
          have hset : setEnabled (beginCommand s1) true =
              { beginCommand s1 with mEnabled := true } := by
            simp [setEnabled]
          rw [hset]
          refine ⟨by simp [endCommand, beginCommand, p2, htmp],
            by simp [endCommand, beginCommand, p4],
            by simp [endCommand, beginCommand, p7, hsup],
            by simp [endCommand, beginCommand, p8, hdepth],
            by simpa [endCommand, beginCommand, p3, p9] using hsplen,
            ?_⟩
          intro hco
          simp [endCommand] at hco
        · -- disabling while enabled: the history is cleared
          have hset : setEnabled (beginCommand s1) false =
              { beginCommand s1 with
                mEnabled := false,
                mUndoRedoStack := [], mStackPointer := 0 } := by
            simp [setEnabled, beginCommand, p1, henb, clearProvenance]
          rw [hset]
          exact ⟨by simp [endCommand, beginCommand, p2, htmp],
            by simp [endCommand, beginCommand, p4],
            by simp [endCommand, beginCommand, p7, hsup],
            by simp [endCommand, beginCommand, p8, hdepth],
            by simp [endCommand],
            fun _ => ⟨by simp [endCommand], by simp [endCommand]⟩⟩
      · have hs' : s' = endCommand (setEnabled (beginCommand s) b) := by
          have hrun : scriptSetEnabled reg fuel b s =
              .ok (endCommand (setEnabled (beginCommand s) b)) := by
            simp only [scriptSetEnabled, henb, Bool.false_eq_true, if_false,
              except_pure_eq_ok, except_bind_ok]
          rw [hrun] at h
          exact (Except.ok.inj h).symm
        subst hs'
        have hset : setEnabled (beginCommand s) b =
            { beginCommand s with mEnabled := b } := by
          simp [setEnabled, beginCommand, henb]
        rw [hset]
        refine ⟨by simp [endCommand, beginCommand, htmp],
          by simp [endCommand, beginCommand, hlog],
          by simp [endCommand, beginCommand, hsup],
          by simp [endCommand, beginCommand, hdepth],
          by simpa [endCommand, beginCommand] using hsplen,
          ?_⟩
        intro _
        exact ⟨by simpa [endCommand, beginCommand] using (hdis henb).1,
          by simpa [endCommand, beginCommand] using (hdis henb).2⟩
  | clear =>
      simp only [runOp] at h
      rcases Bool.eq_false_or_eq_true s.mEnabled with henb | henb
      · obtain ⟨s1, h1, p1, p2, p3, p4, p5, p6, p7, p8, p9, p10, p11, p12,
          p13⟩ := logExecution_exempt s "provenance.clear" [] htmp hlog hsup
        have hs' : s' = endCommand (clearProvenance (beginCommand s1)) := by
          have hrun : scriptClear reg fuel s =
              .ok (endCommand (clearProvenance (beginCommand s1))) := by
            simp only [scriptClear, henb, if_true, h1, except_bind_ok,
              except_pure_eq_ok]
          rw [hrun] at h
          exact (Except.ok.inj h).symm
        subst hs'
        exact ⟨by simp [endCommand, clearProvenance, beginCommand, p2, htmp],
          by simp [endCommand, clearProvenance, beginCommand, p4],
          by simp [endCommand, clearProvenance, beginCommand, p7, hsup],
          by simp [endCommand, clearProvenance, beginCommand, p8, hdepth],
          by simp [endCommand, clearProvenance],
          fun _ => ⟨by simp [endCommand, clearProvenance],
            by simp [endCommand, clearProvenance]⟩⟩
      · have hs' : s' = endCommand (clearProvenance (beginCommand s)) := by
          have hrun : scriptClear reg fuel s =
              .ok (endCommand (clearProvenance (beginCommand s))) := by
            simp only [scriptClear, henb, Bool.false_eq_true, if_false,
              except_pure_eq_ok, except_bind_ok]
          rw [hrun] at h
          exact (Except.ok.inj h).symm
        subst hs'
        exact ⟨by simp [endCommand, clearProvenance, beginCommand, htmp],
          by simp [endCommand, clearProvenance, beginCommand, hlog],
          by simp [endCommand, clearProvenance, beginCommand, hsup],
          by simp [endCommand, clearProvenance, beginCommand, hdepth],
          by simp [endCommand, clearProvenance],
          fun _ => ⟨by simp [endCommand, clearProvenance],
            by simp [endCommand, clearProvenance]⟩⟩
  | logAll b =>
      have hs' : s' = enableLogAll s b := by
        have hrun : runOp reg fuel (.logAll b) s = .ok (enableLogAll s b) := rfl
        rw [hrun] at h
        exact (Except.ok.inj h).symm
      subst hs'
      rcases Bool.eq_false_or_eq_true b with hb | hb
      all_goals subst hb
      · exact ⟨by simp [enableLogAll, htmp], by simp [enableLogAll, hlog],
          by simp [enableLogAll, hsup], by simp [enableLogAll, hdepth],
          by simpa [enableLogAll] using hsplen,
          fun hco => ⟨by simpa [enableLogAll] using
              (hdis (by simpa [enableLogAll] using hco)).1,
            by simpa [enableLogAll] using
              (hdis (by simpa [enableLogAll] using hco)).2⟩⟩
      · exact ⟨by simp [enableLogAll, htmp], by simp [enableLogAll, hlog],
          by simp [enableLogAll, hsup], by simp [enableLogAll, hdepth],
          by simpa [enableLogAll] using hsplen,
          fun hco => ⟨by simpa [enableLogAll] using
              (hdis (by simpa [enableLogAll] using hco)).1,
            by simpa [enableLogAll] using
              (hdis (by simpa [enableLogAll] using hco)).2⟩⟩

/-- Every reachable controller state satisfies the controller invariant. -/
theorem reachable_inv (reg : Registry) (s : PState)
    (h : Reachable reg s) : Inv s := by
  obtain ⟨ops, fuel, hrun⟩ := h
  have hinit : Inv initState := by
    refine ⟨rfl, rfl, rfl, rfl, by simp [initState], ?_⟩
    intro hco
    simp [initState] at hco
  have hgen : ∀ (ops : List Op) (s0 s1 : PState), Inv s0 →
      runOps reg fuel ops s0 = .ok s1 → Inv s1 := by
    intro ops
    induction ops with
    | nil =>
        intro s0 s1 h0 hr
        have : s1 = s0 := by simpa [runOps] using hr.symm
        subst this
        exact h0
    | cons op rest ih =>
        intro s0 s1 h0 hr
        rw [show runOps reg fuel (op :: rest) s0 =
            runOp reg fuel op s0 >>= (fun sx => runOps reg fuel rest sx) by
          simp only [runOps]] at hr
        cases hrec : runOp reg fuel op s0 with
        | error et => rw [hrec] at hr; exact absurd hr (by simp)
        | ok sx =>
            rw [hrec, except_bind_ok] at hr
            exact ih sx s1 (runOp_inv reg fuel op s0 sx h0 hrec) hr
  refine hgen ops initState s hinit hrun

/-! ### Concrete fixtures, mirroring the repository's unit-test setup -/

/-- A small registry in the style of the unit tests at the bottom of
`LUAProvenance.cpp`: a primitive setter `set_i1` and a composited command
`setAll` whose body executes `set_i1` with its own argument (compare
`set_i1_s1_b1` / `setAll` in `SUITE(LuaProvenanceTests)`). -/
def regA : Registry := fun n =>
  if n = "set_i1" then some ⟨false, .prim⟩
  else if n = "setAll" then some ⟨false, .comp [("set_i1", fun a => a)]⟩
  else none

/-- A controller state holding one childless recorded entry for
`set_i1(1)` executed from the default state. -/
def sA : PState :=
  { initState with
    mUndoRedoStack := [⟨"set_i1", [], [LuaValue.int 1], []⟩],
    mStackPointer := 1,
    mProvenanceDescList := ["set_i1(1) - depth:0"],
    lastExec := fun n => if n = "set_i1" then [LuaValue.int 1] else [],
    progState := fun n => if n = "set_i1" then [LuaValue.int 1] else [] }

/-- The entry recorded in `sA`. -/
def eA : UndoRedoItem := ⟨"set_i1", [], [LuaValue.int 1], []⟩

/-- The script steps of the composite scenario: execute `setAll(1)` once. -/
def opsC : List Op := [Op.exec "setAll" [LuaValue.int 1]]

/-- The controller state after executing `setAll(1)` from a fresh
controller: one top-level entry for `setAll` with one child for `set_i1`. -/
def sC : PState := (runOps regA 10 opsC initState).toOption.getD initState

/-- The top-level entry recorded in `sC`. -/
def eC : UndoRedoItem :=
  ⟨"setAll", [], [LuaValue.int 1], [⟨"set_i1", [], [LuaValue.int 1], []⟩]⟩

/-- Undo immediately followed by redo, as exercised by the
`provenance.undo(); provenance.redo()` pairs of the unit tests. -/
def undoThenRedo (reg : Registry) (fuel : Nat) (s : PState) : PResult := do
  let s1 ← issueUndo reg fuel s
  issueRedo reg fuel s1

/-- A registry holding a composited command whose body executes a name that
was never registered, so the replayed invocation itself raises an engine
error out of `lua_call`. -/
def regB : Registry := fun n =>
  if n = "boom" then some ⟨false, .comp [("nope", fun a => a)]⟩
  else none

/-- A controller state holding one recorded entry for `boom`. -/
def sB : PState :=
  { initState with
    mUndoRedoStack := [⟨"boom", [], [], []⟩],
    mStackPointer := 1,
    mProvenanceDescList := ["boom() - depth:0"] }

/-- State carried by an error outcome (the state at throw time). -/
def errState (r : PResult) : PState :=
  match r with
  | .error (_, t) => t
  | .ok s => s

/-! ### Claim C1 -/

/-- C1: whenever `logExecution` is reached for a command that is not
stack-exempt and outside replay suppression (with the controller not mid
capture, the stack pointer within the stack, and — as the code's own assert
demands at non-zero depth — a positive stack pointer when a parent entry is
in flight), the controller first removes every stack entry at index `>= sp`;
then, at command depth 0, it appends exactly one new top-level entry
`{name, undoParams := lastExec name, redoParams := funParams}` and increments
`sp` by one, while at depth `> 0` it appends that entry as a child of the
most recently pushed top-level entry and leaves `sp` unchanged; in every case
`sp <= stack.length` holds afterwards (`0 <= sp` holds by type). -/
theorem C1_logExecution_stack_discipline (s : PState) (fname : String)
    (p : Params)
    (htmp : s.mTemporarilyDisabled = false)
    (hlog : s.mLoggingProvenance = false)
    (hsup : s.mUndoRedoProvenanceDisable = false)
    (hsplen : s.mStackPointer ≤ s.mUndoRedoStack.length)
    (hdepth : s.mCommandDepth ≠ 0 → 0 < s.mStackPointer) :
    ∃ s', logExecution s fname false p = .ok s' ∧
      (s.mCommandDepth = 0 →
        s'.mUndoRedoStack = s.mUndoRedoStack.take s.mStackPointer ++
          [⟨fname, s.lastExec fname, p, []⟩] ∧
        s'.mStackPointer = s.mStackPointer + 1) ∧
      (s.mCommandDepth ≠ 0 →
        (∃ back, (s.mUndoRedoStack.take s.mStackPointer).getLast? = some back ∧
          s'.mUndoRedoStack =
            (s.mUndoRedoStack.take s.mStackPointer).dropLast ++
              [addChildItem back ⟨fname, s.lastExec fname, p, []⟩]) ∧
        s'.mStackPointer = s.mStackPointer) ∧
      s'.mStackPointer ≤ s'.mUndoRedoStack.length := by
  obtain ⟨s', h1, q1, q2, q3, q4, q5, q6, q7, q8, q9, q10, q11, q12, q13,
    q14⟩ := logExecution_record s fname p htmp hlog hsup hsplen hdepth
  exact ⟨s', h1, q12, q13, q14⟩

theorem C1_witness :
    (sA.mTemporarilyDisabled = false ∧
     sA.mStackPointer ≤ sA.mUndoRedoStack.length ∧ sA.mCommandDepth = 0) ∧
    (∃ s', logExecution sA "set_i1" false [LuaValue.int 2] = .ok s' ∧
      (sA.mCommandDepth = 0 →
        s'.mUndoRedoStack = sA.mUndoRedoStack.take sA.mStackPointer ++
          [⟨"set_i1", sA.lastExec "set_i1", [LuaValue.int 2], []⟩] ∧
        s'.mStackPointer = sA.mStackPointer + 1) ∧
      (sA.mCommandDepth ≠ 0 →
        (∃ back, (sA.mUndoRedoStack.take sA.mStackPointer).getLast? = some back ∧
          s'.mUndoRedoStack =
            (sA.mUndoRedoStack.take sA.mStackPointer).dropLast ++
              [addChildItem back
                ⟨"set_i1", sA.lastExec "set_i1", [LuaValue.int 2], []⟩]) ∧
        s'.mStackPointer = sA.mStackPointer) ∧
      s'.mStackPointer ≤ s'.mUndoRedoStack.length) :=
  ⟨⟨rfl, by decide, rfl⟩,
   C1_logExecution_stack_discipline sA "set_i1" [LuaValue.int 2] rfl rfl rfl
     (by decide) (fun h => absurd rfl h)⟩

/-! ### Claim C2 -/

/-- C2: a successful `issueUndo` from a state with `sp > 0` replays, through
the replay path, first the parent entry `e0 = stack[sp-1]` with its undo
parameters and then each of its children with that child's undo parameters in
forward order (the ghost replay trace records exactly this sequence), leaves
the stack itself unchanged, and decrements `sp` by exactly one only after
all replays succeeded. -/
theorem C2_issueUndo_replay_order (reg : Registry) (fuel : Nat) (s : PState)
    (e0 : UndoRedoItem)
    (htmp : s.mTemporarilyDisabled = false)
    (hlog : s.mLoggingProvenance = false)
    (hsup : s.mUndoRedoProvenanceDisable = false) (hdesc : DescInv s)
    (hsppos : 0 < s.mStackPointer)
    (hget : s.mUndoRedoStack.get? (s.mStackPointer - 1) = some e0) :
    ∀ s', issueUndo reg fuel s = .ok s' →
      s'.replayLog = s.replayLog ++
        (e0.function, e0.undoParams, true) ::
          e0.childItems.map (fun c => (c.function, c.undoParams, true)) ∧
      s'.mUndoRedoStack = s.mUndoRedoStack ∧
      s'.mStackPointer = s.mStackPointer - 1 := by
  intro s' h
  have huo := issueUndo_ok_spec reg fuel s e0 htmp hlog hsup hdesc hsppos
    hget s' h
  exact ⟨huo.rlog, huo.stack, huo.sp⟩

theorem C2_witness :
    (0 < sC.mStackPointer ∧
     sC.mUndoRedoStack.get? (sC.mStackPointer - 1) = some eC) ∧
    ((errState (issueUndo regA 10 sC)).replayLog = sC.replayLog ++
        (eC.function, eC.undoParams, true) ::
          eC.childItems.map (fun c => (c.function, c.undoParams, true)) ∧
     (errState (issueUndo regA 10 sC)).mUndoRedoStack = sC.mUndoRedoStack ∧
     (errState (issueUndo regA 10 sC)).mStackPointer = sC.mStackPointer - 1) :=
  ⟨⟨by decide, rfl⟩,
   C2_issueUndo_replay_order regA 10 sC eC rfl rfl rfl
     (fun _ => by decide) (by decide) rfl (errState (issueUndo regA 10 sC))
     rfl⟩

/-! ### Claim C3 -/

/-- C3: a successful `issueRedo` from a state with `sp < stack.length`
invokes, through the replay path, exactly one command — the entry
`e0 = stack[sp]` with its redo parameters; none of `e0`'s children are
replayed (the ghost replay trace gains exactly one element), the stack is
unchanged, and `sp` is incremented by exactly one. -/
theorem C3_issueRedo_replays_parent_only (reg : Registry) (fuel : Nat)
    (s : PState) (e0 : UndoRedoItem)
    (htmp : s.mTemporarilyDisabled = false)
    (hlog : s.mLoggingProvenance = false)
    (hsup : s.mUndoRedoProvenanceDisable = false) (hdesc : DescInv s)
    (hne : s.mStackPointer ≠ s.mUndoRedoStack.length)
    (hget : s.mUndoRedoStack.get? s.mStackPointer = some e0) :
    ∀ s', issueRedo reg fuel s = .ok s' →
      s'.replayLog = s.replayLog ++ [(e0.function, e0.redoParams, false)] ∧
      s'.mUndoRedoStack = s.mUndoRedoStack ∧
      s'.mStackPointer = s.mStackPointer + 1 := by
  intro s' h
  have hro := issueRedo_ok_spec reg fuel s e0 htmp hlog hsup hdesc hne
    hget s' h
  exact ⟨hro.rlog, hro.stack, hro.sp⟩

theorem C3_witness :
    (sA.mStackPointer - 1 ≠ sA.mUndoRedoStack.length ∧
     sA.mUndoRedoStack.get? (sA.mStackPointer - 1) = some eA) ∧
    ((errState (issueRedo regA 10 { sA with mStackPointer := 0 })).replayLog =
        ({ sA with mStackPointer := 0 } : PState).replayLog ++
          [(eA.function, eA.redoParams, false)] ∧
     (errState (issueRedo regA 10 { sA with mStackPointer := 0 })).mUndoRedoStack =
        ({ sA with mStackPointer := 0 } : PState).mUndoRedoStack ∧
     (errState (issueRedo regA 10 { sA with mStackPointer := 0 })).mStackPointer =
        ({ sA with mStackPointer := 0 } : PState).mStackPointer + 1) :=
  ⟨⟨by decide, rfl⟩,
   C3_issueRedo_replays_parent_only regA 10 { sA with mStackPointer := 0 } eA
     rfl rfl rfl (fun _ => by decide) (by decide) rfl
     (errState (issueRedo regA 10 { sA with mStackPointer := 0 })) rfl⟩

/-! ### Claim C4 -/

/-- C4: over a closed registry (and with enough fuel for the replays to run
to an outcome), `issueUndo` fails with `LuaProvenanceInvalidUndo` exactly
when `sp = 0` or the replay path cannot resolve the entry's own command or
one of its children's commands; and on every failing outcome whatsoever the
undo/redo stack contents and the stack pointer are unchanged. -/
theorem C4_issueUndo_error_characterization (reg : Registry) (fuel : Nat)
    (s : PState)
    (htmp : s.mTemporarilyDisabled = false)
    (hlog : s.mLoggingProvenance = false)
    (hsup : s.mUndoRedoProvenanceDisable = false) (hdesc : DescInv s)
    (hsplen : s.mStackPointer ≤ s.mUndoRedoStack.length)
    (hclosed : RegClosed reg)
    (hfuel : ∀ t, issueUndo reg fuel s ≠ .error (.fuelOut, t)) :
    (∀ e t, issueUndo reg fuel s = .error (e, t) →
      t.mUndoRedoStack = s.mUndoRedoStack ∧
      t.mStackPointer = s.mStackPointer) ∧
    ((∃ t, issueUndo reg fuel s = .error (.invalidUndo, t)) ↔
      (s.mStackPointer = 0 ∨
        ∃ e0, s.mUndoRedoStack.get? (s.mStackPointer - 1) = some e0 ∧
          (reg e0.function = none ∨
            ∃ c ∈ e0.childItems, reg c.function = none))) := by
  constructor
  · intro e t herr
    have h := issueUndo_err_spec reg fuel s htmp hlog hsup hdesc hsplen
      e t herr
    exact ⟨h.2.1, h.2.2.1⟩
  · constructor
    · rintro ⟨t, herr⟩
      have h := issueUndo_err_spec reg fuel s htmp hlog hsup hdesc hsplen
        .invalidUndo t herr
      exact (h.2.2.2.1 rfl).1
    · intro hcond
      cases hres : issueUndo reg fuel s with
      | ok s' =>
          exfalso
          rcases Nat.eq_zero_or_pos s.mStackPointer with hsp0 | hsppos
          · rw [issueUndo_sp0 reg fuel s hsp0] at hres
            exact absurd hres (by simp)
          · rcases hcond with hsp0 | ⟨e0, hget, hbad⟩
            · omega
            · have huo := issueUndo_ok_spec reg fuel s e0 htmp hlog hsup
                hdesc hsppos hget s' hres
              rcases hbad with hbad | ⟨c, hc, hbad⟩
              · have hp := huo.parentReg
                rw [hbad] at hp
                exact absurd hp (by simp)
              · have hp := huo.childReg c hc
                rw [hbad] at hp
                exact absurd hp (by simp)
      | error et =>
          obtain ⟨e, t⟩ := et
          have h := issueUndo_err_spec reg fuel s htmp hlog hsup hdesc
            hsplen e t hres
          have he : e = .invalidUndo := by
            rcases h.1 with hk | hk | hk
            · exact hk
            · exact absurd hk (h.2.2.2.2.2 hclosed)
            · rw [hk] at hres
              exact absurd hres (hfuel t)
          exact ⟨t, by rw [he]⟩

/-- The test registry is closed: `setAll`'s body only executes `set_i1`. -/
theorem regA_closed : RegClosed regA := by
  intro n cmd hn calls hcalls c hc
  by_cases h1 : n = "set_i1"
  · subst h1
    simp [regA] at hn
    rw [← hn] at hcalls
    simp at hcalls
  · by_cases h2 : n = "setAll"
    · subst h2
      simp [regA, h1] at hn
      rw [← hn] at hcalls
      simp at hcalls
      rw [← hcalls] at hc
      simp at hc
      rw [hc]
      simp [regA]
    · simp [regA, h1, h2] at hn

theorem C4_witness :
    (RegClosed regA ∧ DescInv sA ∧
     sA.mStackPointer ≤ sA.mUndoRedoStack.length) ∧
    ((∀ e t, issueUndo regA 10 sA = .error (e, t) →
      t.mUndoRedoStack = sA.mUndoRedoStack ∧
      t.mStackPointer = sA.mStackPointer) ∧
    ((∃ t, issueUndo regA 10 sA = .error (.invalidUndo, t)) ↔
      (sA.mStackPointer = 0 ∨
        ∃ e0, sA.mUndoRedoStack.get? (sA.mStackPointer - 1) = some e0 ∧
          (regA e0.function = none ∨
            ∃ c ∈ e0.childItems, regA c.function = none)))) :=
  ⟨⟨regA_closed, fun _ => by decide, by decide⟩,
   C4_issueUndo_error_characterization regA 10 sA rfl rfl rfl
     (fun _ => by decide) (by decide) regA_closed
     (by
       intro t hco
       rw [show issueUndo regA 10 sA =
           .ok (errState (issueUndo regA 10 sA)) from rfl] at hco
       exact Except.noConfusion hco)⟩

/-! ### Claim C5 -/

/-- C5: `issueRedo` fails with `LuaProvenanceInvalidRedo` exactly when
`sp = stack.length` or the replay path cannot resolve the command of the
entry at index `sp`; and on every failing outcome whatsoever the undo/redo
stack contents and the stack pointer are unchanged. -/
theorem C5_issueRedo_error_characterization (reg : Registry) (fuel : Nat)
    (s : PState)
    (htmp : s.mTemporarilyDisabled = false)
    (hlog : s.mLoggingProvenance = false)
    (hsup : s.mUndoRedoProvenanceDisable = false) (hdesc : DescInv s)
    (hsplen : s.mStackPointer ≤ s.mUndoRedoStack.length) :
    (∀ e t, issueRedo reg fuel s = .error (e, t) →
      t.mUndoRedoStack = s.mUndoRedoStack ∧
      t.mStackPointer = s.mStackPointer) ∧
    ((∃ t, issueRedo reg fuel s = .error (.invalidRedo, t)) ↔
      (s.mStackPointer = s.mUndoRedoStack.length ∨
        ∃ e0, s.mUndoRedoStack.get? s.mStackPointer = some e0 ∧
          reg e0.function = none)) := by
  constructor
  · intro e t herr
    have h := issueRedo_err_spec reg fuel s htmp hlog hsup hdesc hsplen
      e t herr
    exact ⟨h.2.1, h.2.2.1⟩
  · constructor
    · rintro ⟨t, herr⟩
      have h := issueRedo_err_spec reg fuel s htmp hlog hsup hdesc hsplen
        .invalidRedo t herr
      exact (h.2.2.2.1 rfl).1
    · intro hcond
      rcases hcond with htop | ⟨e0, hget, hregn⟩
      · exact ⟨s, issueRedo_top reg fuel s htop⟩
      · have hne : s.mStackPointer ≠ s.mUndoRedoStack.length := by
          intro hc
          rw [List.get?_eq_getElem?] at hget
          have := List.getElem?_eq_none (l := s.mUndoRedoStack)
            (n := s.mStackPointer) (by omega)
          rw [this] at hget
          exact Option.noConfusion hget
        refine ⟨s, ?_⟩
        have hp0 : performUndoRedoOp reg fuel e0.function e0.redoParams
            false s = .error (.invalidUndoOrRedo, s) := by
          simp [performUndoRedoOp, hregn]
        have hrun : issueRedo reg fuel s =
            rethrowRedo (performUndoRedoOp reg fuel e0.function e0.redoParams
              false s) >>= (fun s1 =>
                pure { s1 with mStackPointer := s1.mStackPointer + 1 }) := by
          simp only [issueRedo, hne, if_false, hget]
        rw [hrun, hp0]
        rfl

theorem C5_witness :
    (DescInv sA ∧ sA.mStackPointer ≤ sA.mUndoRedoStack.length) ∧
    ((∀ e t, issueRedo regA 10 sA = .error (e, t) →
      t.mUndoRedoStack = sA.mUndoRedoStack ∧
      t.mStackPointer = sA.mStackPointer) ∧
    ((∃ t, issueRedo regA 10 sA = .error (.invalidRedo, t)) ↔
      (sA.mStackPointer = sA.mUndoRedoStack.length ∨
        ∃ e0, sA.mUndoRedoStack.get? sA.mStackPointer = some e0 ∧
          regA e0.function = none))) :=
  ⟨⟨fun _ => by decide, by decide⟩,
   C5_issueRedo_error_characterization regA 10 sA rfl rfl rfl
     (fun _ => by decide) (by decide)⟩

/-! ### Claim C6 -/

/-- C6 as stated is false: in the reachable state obtained by executing the
composited command `setAll(1)` from a fresh controller, undo followed by redo
restores the stack pointer and the tracked targets, but leaves the child
command `set_i1`'s last-executed-parameter store holding the child's undo
parameters `[]` instead of the pre-undo value `[1]` — during redo only the
parent is replayed and the suppressed nested execution of `set_i1` returns
before the last-exec update. -/
theorem C6_counterexample :
    ¬ (∀ (fuel : Nat) (s : PState), Reachable regA s →
        0 < s.mStackPointer →
        ∀ s2, undoThenRedo regA fuel s = .ok s2 →
          s2.mStackPointer = s.mStackPointer ∧
          (∀ v, s2.progState v = s.progState v) ∧
          (∀ v, s2.lastExec v = s.lastExec v)) := by
  intro h
  have hreach : Reachable regA sC := ⟨opsC, 10, rfl⟩
  have hrun : undoThenRedo regA 10 sC =
      .ok (errState (undoThenRedo regA 10 sC)) := rfl
  have hc := (h 10 sC hreach (by decide)
    (errState (undoThenRedo regA 10 sC)) hrun).2.2 "set_i1"
  rw [show (errState (undoThenRedo regA 10 sC)).lastExec "set_i1" =
      ([] : Params) from rfl,
    show sC.lastExec "set_i1" = [LuaValue.int 1] from rfl] at hc
  exact absurd hc (by decide)

/-- C6 amended: for a state whose program state already agrees with the redo
effect of the entry below the stack pointer (as holds in reachable states),
undo immediately followed by redo restores the stack pointer and every
tracked target, and restores the last-executed-parameter store of every
command except the undone entry's children, whose stores are left holding
those children's undo parameters. -/
theorem C6_amended_undo_redo (reg : Registry) (fuel : Nat) (s : PState)
    (e0 : UndoRedoItem)
    (htmp : s.mTemporarilyDisabled = false)
    (hlog : s.mLoggingProvenance = false)
    (hsup : s.mUndoRedoProvenanceDisable = false) (hdesc : DescInv s)
    (hsppos : 0 < s.mStackPointer)
    (hsplen : s.mStackPointer ≤ s.mUndoRedoStack.length)
    (hget : s.mUndoRedoStack.get? (s.mStackPointer - 1) = some e0)
    (hlex : s.lastExec e0.function = e0.redoParams)
    (hlive : ∀ lr, execEff reg fuel e0.function e0.redoParams = some lr →
      ∀ v w, lastWrite lr v = some w → s.progState v = w)
    (hchild : ∀ c ∈ e0.childItems, ∀ lc lr,
      execEff reg fuel c.function c.undoParams = some lc →
      execEff reg fuel e0.function e0.redoParams = some lr →
      ∀ v, lastWrite lc v ≠ none → lastWrite lr v ≠ none) :
    ∀ s2, undoThenRedo reg fuel s = .ok s2 →
      s2.mStackPointer = s.mStackPointer ∧
      (∀ v, s2.progState v = s.progState v) ∧
      (∀ v, v ∉ e0.childItems.map UndoRedoItem.function →
        s2.lastExec v = s.lastExec v) := by
  intro s2 hrun
  rw [show undoThenRedo reg fuel s =
      issueUndo reg fuel s >>= (fun s1 => issueRedo reg fuel s1) from rfl]
    at hrun
  cases hrec1 : issueUndo reg fuel s with
  | error et => rw [hrec1] at hrun; exact absurd hrun (by simp)
  | ok s1 =>
      rw [hrec1, except_bind_ok] at hrun
      have huo := issueUndo_ok_spec reg fuel s e0 htmp hlog hsup hdesc
        hsppos hget s1 hrec1
      have hne1 : s1.mStackPointer ≠ s1.mUndoRedoStack.length := by
        rw [huo.sp, huo.stack]
        omega
      have hget1 : s1.mUndoRedoStack.get? s1.mStackPointer = some e0 := by
        rw [huo.sp, huo.stack]
        exact hget
      have hro := issueRedo_ok_spec reg fuel s1 e0 huo.temp huo.logp
        huo.supp huo.dinv hne1 hget1 s2 hrun
      obtain ⟨lu, hlu, hundo⟩ := huo.progChar
      obtain ⟨lr, hlr, hredo⟩ := hro.eff
      have hfst : lu.map Prod.fst = lr.map Prod.fst :=
        effStep_fst reg fuel (.call e0.function e0.undoParams)
          (.call e0.function e0.redoParams) rfl lu lr hlu hlr
      refine ⟨?_, ?_, ?_⟩
      · rw [hro.sp, huo.sp]
        omega
      · intro v
        rw [hredo]
        rw [applyWrites_lastWrite]
        rcases hw : lastWrite lr v with _ | w
        · -- no redo write to this target: the undo left it unchanged too
          have hu : lastWrite lu v = none := by
            rw [lastWrite_none_iff] at hw ⊢
            rw [hfst]
            exact hw
          have hcnone : ∀ c ∈ e0.childItems, ∀ lc,
              execEff reg fuel c.function c.undoParams = some lc →
                lastWrite lc v = none := by
            intro c hc lc hlc
            rcases hwc : lastWrite lc v with _ | w
            · rfl
            · exfalso
              have := hchild c hc lc lr hlc hlr v (by rw [hwc]; simp)
              exact this hw
          have := hundo v hu hcnone
          simp only [Option.getD]
          exact this
        · simp only [Option.getD]
          exact (hlive lr hlr v w hw).symm
      · intro v hv
        rw [hro.lex]
        by_cases hvp : v = e0.function
        · subst hvp
          simp [hlex]
        · simp only [if_neg hvp]
          exact huo.lexOff v hvp hv

theorem C6_amended_witness :
    (0 < sC.mStackPointer ∧
     sC.mUndoRedoStack.get? (sC.mStackPointer - 1) = some eC ∧
     sC.lastExec eC.function = eC.redoParams) ∧
    ((errState (undoThenRedo regA 10 sC)).mStackPointer = sC.mStackPointer ∧
     (∀ v, (errState (undoThenRedo regA 10 sC)).progState v =
        sC.progState v) ∧
     (∀ v, v ∉ eC.childItems.map UndoRedoItem.function →
        (errState (undoThenRedo regA 10 sC)).lastExec v = sC.lastExec v)) :=
  ⟨⟨by decide, rfl, rfl⟩,
   C6_amended_undo_redo regA 10 sC eC rfl rfl rfl (fun _ => by decide)
     (by decide) (by decide) rfl rfl
     (by
       intro lr hlr v w hw
       rw [show execEff regA 10 eC.function eC.redoParams =
           some [("set_i1", [LuaValue.int 1])] from rfl] at hlr
       have hlr' : [("set_i1", [LuaValue.int 1])] = lr :=
         Option.some.inj hlr
       subst hlr'
       by_cases hv : v = "set_i1"
       · subst hv
         rw [show lastWrite [("set_i1", [LuaValue.int 1])] "set_i1" =
             some [LuaValue.int 1] from rfl] at hw
         have hw' := Option.some.inj hw
         rw [← hw']
         rfl
       · rw [show lastWrite [("set_i1", [LuaValue.int 1])] v =
             (if v = "set_i1" then some [LuaValue.int 1] else none) from rfl]
           at hw
         rw [if_neg hv] at hw
         exact absurd hw (by simp))
     (by
       intro c hc lc lr hlc hlr v hne
       rw [show eC.childItems = [⟨"set_i1", [], [LuaValue.int 1], []⟩]
           from rfl] at hc
       simp only [List.mem_singleton] at hc
       subst hc
       rw [show execEff regA 10
           (UndoRedoItem.function ⟨"set_i1", [], [LuaValue.int 1], []⟩)
           (UndoRedoItem.undoParams ⟨"set_i1", [], [LuaValue.int 1], []⟩) =
           some [("set_i1", [])] from rfl] at hlc
       have hlc' : [("set_i1", ([] : Params))] = lc := Option.some.inj hlc
       subst hlc'
       rw [show execEff regA 10 eC.function eC.redoParams =
           some [("set_i1", [LuaValue.int 1])] from rfl] at hlr
       have hlr' : [("set_i1", [LuaValue.int 1])] = lr :=
         Option.some.inj hlr
       subst hlr'
       by_cases hv : v = "set_i1"
       · subst hv
         intro hco
         rw [show lastWrite [("set_i1", [LuaValue.int 1])] "set_i1" =
             some [LuaValue.int 1] from rfl] at hco
         exact Option.noConfusion hco
       · exfalso
         apply hne
         rw [show lastWrite [("set_i1", ([] : Params))] v =
             (if v = "set_i1" then some [] else none) from rfl]
         rw [if_neg hv])
     (errState (undoThenRedo regA 10 sC)) rfl⟩

/-! ### Claim C7 -/

/-- C7 as stated is false: `setEnabled(false)` calls `clearProvenance`, which
resets only the undo/redo stack and the stack pointer; the provenance
description list is left untouched.  In the enabled state `sA`, whose
description list holds one line, disabling provenance keeps that line. -/
theorem C7_counterexample :
    ¬ (∀ s : PState, s.mEnabled = true →
        (setEnabled s false).mUndoRedoStack = [] ∧
        (setEnabled s false).mStackPointer = 0 ∧
        (setEnabled s false).mProvenanceDescList = []) := by
  intro h
  have hc := (h sA rfl).2.2
  rw [show (setEnabled sA false).mProvenanceDescList =
      ["set_i1(1) - depth:0"] from rfl] at hc
  exact absurd hc (by decide)

/-- C7 amended: on an enabled controller, `setEnabled(false)` clears the
undo/redo stack and resets the stack pointer to zero — so a subsequent
`issueUndo` throws `LuaProvenanceInvalidUndo` without changing anything —
but the provenance description list is left exactly as it was. -/
theorem C7_amended_setEnabled_disable (s : PState)
    (h : s.mEnabled = true) :
    (setEnabled s false).mUndoRedoStack = [] ∧
    (setEnabled s false).mStackPointer = 0 ∧
    (setEnabled s false).mProvenanceDescList = s.mProvenanceDescList ∧
    ∀ reg fuel, issueUndo reg fuel (setEnabled s false) =
      .error (.invalidUndo, setEnabled s false) := by
  have hcl : setEnabled s false = { clearProvenance s with mEnabled := false } := by
    simp [setEnabled, h]
  refine ⟨?_, ?_, ?_, ?_⟩
  · rw [hcl]; rfl
  · rw [hcl]; rfl
  · rw [hcl]; rfl
  · intro reg fuel
    apply issueUndo_sp0
    rw [hcl]
    rfl

theorem C7_amended_witness :
    sA.mEnabled = true ∧
    ((setEnabled sA false).mUndoRedoStack = [] ∧
     (setEnabled sA false).mStackPointer = 0 ∧
     (setEnabled sA false).mProvenanceDescList = sA.mProvenanceDescList ∧
     issueUndo regA 10 (setEnabled sA false) =
       .error (.invalidUndo, setEnabled sA false)) :=
  ⟨rfl, ⟨(C7_amended_setEnabled_disable sA rfl).1,
    (C7_amended_setEnabled_disable sA rfl).2.1,
    (C7_amended_setEnabled_disable sA rfl).2.2.1,
    (C7_amended_setEnabled_disable sA rfl).2.2.2 regA 10⟩⟩

/-! ### Claim C8 -/

/-- C8: whenever the controller is temporarily disabled — the flag replay
raises so that undo/redo avoids re-recording itself — `logExecution`
(the `onCommandInvoked` path) returns immediately with the state fully
unchanged: no description text appended or merged, no stack entry created,
the stack pointer untouched. -/
theorem C8_tempDisabled_noop (s : PState) (fname : String) (ex : Bool)
    (p : Params) (h : s.mTemporarilyDisabled = true) :
    logExecution s fname ex p = .ok s := by
  simp [logExecution, h]

theorem C8_witness :
    ({ initState with mTemporarilyDisabled := true } :
        PState).mTemporarilyDisabled = true ∧
    logExecution { initState with mTemporarilyDisabled := true }
        "set_i1" false [LuaValue.int 7] =
      .ok { initState with mTemporarilyDisabled := true } :=
  ⟨rfl, C8_tempDisabled_noop { initState with mTemporarilyDisabled := true }
    "set_i1" false [LuaValue.int 7] rfl⟩

/-! ### Claim C9 -/

/-- C9 as stated is false: `performUndoRedoOp` raises the replay-suppression
flag `mUndoRedoProvenanceDisable` by a plain assignment before the guarded
call and lowers it by a plain assignment after it, with no scope guard, so
when the replayed call itself throws — here `boom`'s recorded body invokes
the unregistered name `nope` — `issueUndo` propagates the error with the
flag still raised. -/
theorem C9_counterexample :
    ¬ (∀ (reg : Registry) (fuel : Nat) (s : PState) (e : LuaErr)
        (t : PState), issueUndo reg fuel s = .error (e, t) →
          t.mLoggingProvenance = false ∧
          t.mUndoRedoProvenanceDisable = false) := by
  intro h
  have hrun : issueUndo regB 10 sB =
      .error (.unregistered, errState (issueUndo regB 10 sB)) := rfl
  have hc := (h regB 10 sB .unregistered
    (errState (issueUndo regB 10 sB)) hrun).2
  rw [show (errState (issueUndo regB 10 sB)).mUndoRedoProvenanceDisable =
      true from rfl] at hc
  exact absurd hc (by decide)

/-- C9 amended: from a quiescent state, the capture flag
`mLoggingProvenance` is indeed false on every exit of `logExecution`'s
successful path and of `issueUndo`/`issueRedo` whether they return or throw;
the replay-suppression flag `mUndoRedoProvenanceDisable` is false on every
successful return and on the resolution failures thrown before the guarded
call (`LuaProvenanceInvalidUndo` / `LuaProvenanceInvalidRedo`), but on an
undo/redo error it is false exactly when the error is such a resolution
failure — when the guarded replayed call itself throws, the flag stays
raised. -/
theorem C9_amended_flag_discipline (reg : Registry) (fuel : Nat)
    (s : PState)
    (htmp : s.mTemporarilyDisabled = false)
    (hlog : s.mLoggingProvenance = false)
    (hsup : s.mUndoRedoProvenanceDisable = false) (hdesc : DescInv s)
    (hsplen : s.mStackPointer ≤ s.mUndoRedoStack.length) :
    (∀ fname ex p s', logExecution s fname ex p = .ok s' →
        s'.mLoggingProvenance = false ∧
        s'.mUndoRedoProvenanceDisable = false) ∧
    (∀ s', issueUndo reg fuel s = .ok s' →
        s'.mLoggingProvenance = false ∧
        s'.mUndoRedoProvenanceDisable = false) ∧
    (∀ s', issueRedo reg fuel s = .ok s' →
        s'.mLoggingProvenance = false ∧
        s'.mUndoRedoProvenanceDisable = false) ∧
    (∀ e t, issueUndo reg fuel s = .error (e, t) →
        t.mLoggingProvenance = false ∧
        (t.mUndoRedoProvenanceDisable = false ↔ e = .invalidUndo)) ∧
    (∀ e t, issueRedo reg fuel s = .error (e, t) →
        t.mLoggingProvenance = false ∧
        (t.mUndoRedoProvenanceDisable = false ↔ e = .invalidRedo)) := by
  refine ⟨?_, ?_, ?_, ?_, ?_⟩
  · intro fname ex p s' hok
    have h := logExecution_ok_inv s fname ex p htmp hlog hsup hsplen s' hok
    exact ⟨h.2.2.1, h.2.2.2.1⟩
  · intro s' hok
    rcases Nat.eq_zero_or_pos s.mStackPointer with hsp0 | hsppos
    · rw [issueUndo_sp0 reg fuel s hsp0] at hok
      exact absurd hok (by simp)
    · obtain ⟨e0, hget⟩ :
          ∃ e0, s.mUndoRedoStack.get? (s.mStackPointer - 1) = some e0 := by
        rw [List.get?_eq_getElem?]
        exact ⟨s.mUndoRedoStack[s.mStackPointer - 1],
          List.getElem?_eq_getElem (by omega)⟩
      have huo := issueUndo_ok_spec reg fuel s e0 htmp hlog hsup hdesc
        hsppos hget s' hok
      exact ⟨huo.logp, huo.supp⟩
  · intro s' hok
    by_cases htop : s.mStackPointer = s.mUndoRedoStack.length
    · rw [issueRedo_top reg fuel s htop] at hok
      exact absurd hok (by simp)
    · obtain ⟨e0, hget⟩ :
          ∃ e0, s.mUndoRedoStack.get? s.mStackPointer = some e0 := by
        rw [List.get?_eq_getElem?]
        exact ⟨s.mUndoRedoStack[s.mStackPointer],
          List.getElem?_eq_getElem (by omega)⟩
      have hro := issueRedo_ok_spec reg fuel s e0 htmp hlog hsup hdesc
        htop hget s' hok
      exact ⟨hro.logp, hro.supp⟩
  · intro e t herr
    have h := issueUndo_err_spec reg fuel s htmp hlog hsup hdesc hsplen
      e t herr
    rcases h.1 with hk | hk
    · have := h.2.2.2.1 hk
      exact ⟨this.2.1, by rw [hk]; exact ⟨fun _ => rfl, fun _ => this.2.2⟩⟩
    · have := h.2.2.2.2.1 hk
      refine ⟨this.1, ?_, ?_⟩
      · intro hfalse
        rw [this.2] at hfalse
        exact absurd hfalse (by simp)
      · intro hiu
        rcases hk with hk | hk <;> rw [hiu] at hk <;>
          exact absurd hk (by simp)
  · intro e t herr
    have h := issueRedo_err_spec reg fuel s htmp hlog hsup hdesc hsplen
      e t herr
    rcases h.1 with hk | hk
    · have := h.2.2.2.1 hk
      exact ⟨this.2.1, by rw [hk]; exact ⟨fun _ => rfl, fun _ => this.2.2⟩⟩
    · have := h.2.2.2.2.1 hk
      refine ⟨this.1, ?_, ?_⟩
      · intro hfalse
        rw [this.2] at hfalse
        exact absurd hfalse (by simp)
      · intro hiu
        rcases hk with hk | hk <;> rw [hiu] at hk <;>
          exact absurd hk (by simp)

theorem C9_amended_witness :
    (sB.mTemporarilyDisabled = false ∧
     sB.mStackPointer ≤ sB.mUndoRedoStack.length) ∧
    ((errState (issueUndo regB 10 sB)).mLoggingProvenance = false ∧
     ((errState (issueUndo regB 10 sB)).mUndoRedoProvenanceDisable = false ↔
       LuaErr.unregistered = .invalidUndo)) :=
  ⟨⟨rfl, by decide⟩,
   (C9_amended_flag_discipline regB 10 sB rfl rfl rfl (fun _ => by decide)
       (by decide)).2.2.2.1 .unregistered
     (errState (issueUndo regB 10 sB)) rfl⟩

/-! ### Claim C10 -/

/-- C10: in every reachable controller state — including states reached
after `enableLogAll` toggling cleared the description list — the script
commands `provenance.undo` and `provenance.redo` never fail the non-empty
assertion of `ammendLastProvLog` (nor any other assertion): when textual
logging is on, the exempt logging of the undo/redo command itself appends a
description line before replay suppression starts merging into the last
line, so the merge branch always finds the list non-empty; when the
controller is disabled, the stack is empty and resolution fails before any
merge. -/
theorem C10_ammend_assert_safety (reg : Registry) (fuel : Nat) (s : PState)
    (h : Reachable reg s) :
    (∀ t, scriptUndo reg fuel s ≠ .error (.assertFail, t)) ∧
    (∀ t, scriptRedo reg fuel s ≠ .error (.assertFail, t)) := by
  obtain ⟨htmp, hlog, hsup, hdepth, hsplen, hdis⟩ := reachable_inv reg s h
  rcases Bool.eq_false_or_eq_true s.mEnabled with henb | henb
  · -- enabled controller: the exempt log of the command runs first
    constructor
    · intro t hbad
      obtain ⟨s1, hok1, _, htmp1, hsp1, hlog1, _, _, hsup1, _, hstk1, _, _, _,
        hdesc1⟩ := logExecution_exempt s "provenance.undo" [] htmp hlog hsup
      have hrun : scriptUndo reg fuel s =
          issueUndo reg fuel (beginCommand s1) >>=
            (fun s2 => pure (endCommand s2)) := by
        simp [scriptUndo, henb, hok1]
      rw [hrun] at hbad
      cases hrec : issueUndo reg fuel (beginCommand s1) with
      | ok s2 =>
          rw [hrec, except_bind_ok] at hbad
          exact absurd hbad (by simp)
      | error et =>
          obtain ⟨e1, t1⟩ := et
          rw [hrec, except_bind_error] at hbad
          have hpair := Except.error.inj hbad
          injection hpair with he ht
          have hspec := issueUndo_err_spec reg fuel (beginCommand s1)
            (by rw [show (beginCommand s1).mTemporarilyDisabled =
              s1.mTemporarilyDisabled from rfl, htmp1]; exact htmp)
            hlog1 (by rw [show (beginCommand s1).mUndoRedoProvenanceDisable =
              s1.mUndoRedoProvenanceDisable from rfl, hsup1]; exact hsup)
            hdesc1 (by rw [show (beginCommand s1).mStackPointer =
              s1.mStackPointer from rfl, hsp1,
              show (beginCommand s1).mUndoRedoStack = s1.mUndoRedoStack
                from rfl, hstk1]; exact hsplen) e1 t1 hrec
          rcases hspec.1 with hk | hk | hk <;> rw [he] at hk <;>
            exact absurd hk (by simp)
    · intro t hbad
      obtain ⟨s1, hok1, _, htmp1, hsp1, hlog1, _, _, hsup1, _, hstk1, _, _, _,
        hdesc1⟩ := logExecution_exempt s "provenance.redo" [] htmp hlog hsup
      have hrun : scriptRedo reg fuel s =
          issueRedo reg fuel (beginCommand s1) >>=
            (fun s2 => pure (endCommand s2)) := by
        simp [scriptRedo, henb, hok1]
      rw [hrun] at hbad
      cases hrec : issueRedo reg fuel (beginCommand s1) with
      | ok s2 =>
          rw [hrec, except_bind_ok] at hbad
          exact absurd hbad (by simp)
      | error et =>
          obtain ⟨e1, t1⟩ := et
          rw [hrec, except_bind_error] at hbad
          have hpair := Except.error.inj hbad
          injection hpair with he ht
          have hspec := issueRedo_err_spec reg fuel (beginCommand s1)
            (by rw [show (beginCommand s1).mTemporarilyDisabled =
              s1.mTemporarilyDisabled from rfl, htmp1]; exact htmp)
            hlog1 (by rw [show (beginCommand s1).mUndoRedoProvenanceDisable =
              s1.mUndoRedoProvenanceDisable from rfl, hsup1]; exact hsup)
            hdesc1 (by rw [show (beginCommand s1).mStackPointer =
              s1.mStackPointer from rfl, hsp1,
              show (beginCommand s1).mUndoRedoStack = s1.mUndoRedoStack
                from rfl, hstk1]; exact hsplen) e1 t1 hrec
          rcases hspec.1 with hk | hk | hk <;> rw [he] at hk <;>
            exact absurd hk (by simp)
  · -- disabled controller: the stack is empty, resolution fails first
    obtain ⟨hstk, hsp⟩ := hdis henb
    constructor
    · intro t hbad
      have hrun : scriptUndo reg fuel s =
          issueUndo reg fuel (beginCommand s) >>=
            (fun s2 => pure (endCommand s2)) := by
        simp [scriptUndo, henb]
      have hsp0 : (beginCommand s).mStackPointer = 0 := hsp
      rw [hrun, issueUndo_sp0 reg fuel (beginCommand s) hsp0,
        except_bind_error] at hbad
      have hpair := Except.error.inj hbad
      injection hpair with he ht
      exact absurd he (by simp)
    · intro t hbad
      have hrun : scriptRedo reg fuel s =
          issueRedo reg fuel (beginCommand s) >>=
            (fun s2 => pure (endCommand s2)) := by
        simp [scriptRedo, henb]
      have htop : (beginCommand s).mStackPointer =
          (beginCommand s).mUndoRedoStack.length := by
        show s.mStackPointer = s.mUndoRedoStack.length
        rw [hstk, hsp]
        rfl
      rw [hrun, issueRedo_top reg fuel (beginCommand s) htop,
        except_bind_error] at hbad
      have hpair := Except.error.inj hbad
      injection hpair with he ht
      exact absurd he (by simp)

theorem C10_witness :
    Reachable regA sC ∧
    ((∀ t, scriptUndo regA 10 sC ≠ .error (.assertFail, t)) ∧
     (∀ t, scriptRedo regA 10 sC ≠ .error (.assertFail, t))) :=
  ⟨⟨opsC, 10, rfl⟩,
   C10_ammend_assert_safety regA 10 sC ⟨opsC, 10, rfl⟩⟩

end TuvokProv
